import Mathlib

/-!
Verification of the canvas-rs shape tessellation / GPU rendering core.

This file shallowly embeds the Rust sources of the repository
(`src/scene/{types,shape,graph,svg_path}.rs`, `src/gpu/{vertex,tessellation,renderer}.rs`)
into Lean 4 and proves (or refutes) the specified claims.

Modelling conventions:
* `f32` values are modelled as exact rational numbers (`ℚ`); floating-point
  rounding is not modelled.  The elliptical-arc conversion (`arc_to_beziers`)
  uses transcendental functions and is modelled over `ℝ`.
* `u64` shape ids and `usize`/`u32` sizes and indices are modelled as `ℕ`.
  Vector lengths stay far below `2^32` on the wasm32 target (each vertex
  occupies 24 bytes of a ≤ 4 GiB address space), so index arithmetic in
  `Mesh::extend` cannot wrap and is modelled without `% 2^32`.
* `HashSet<u64>` is modelled as a duplicate-free `List ℕ`
  (`List.insert` inserts only when absent, matching set semantics), and
  `HashMap<u64, Mesh>` as an association list whose insert replaces the
  previous binding.  `Vec<T>` is `List T`.
* The lyon fill/stroke tessellators are an external crate, not part of this
  repository; where a claim depends on them they are modelled from the spec
  (see the doc comments on the tessellation model definitions below).
-/

set_option linter.unnecessarySimpa false

namespace CanvasRs

/-- 2D point/vector with rational coordinates (glam `Vec2` with `f32` fields). -/
structure Vec2 where
  x : ℚ
  y : ℚ
  deriving DecidableEq, Repr

namespace Vec2

def ZERO : Vec2 := ⟨0, 0⟩

def ONE : Vec2 := ⟨1, 1⟩

/-- Component-wise minimum (glam `Vec2::min`). -/
def vmin (a b : Vec2) : Vec2 := ⟨min a.x b.x, min a.y b.y⟩

/-- Component-wise maximum (glam `Vec2::max`). -/
def vmax (a b : Vec2) : Vec2 := ⟨max a.x b.x, max a.y b.y⟩

def add (a b : Vec2) : Vec2 := ⟨a.x + b.x, a.y + b.y⟩

def mul (a b : Vec2) : Vec2 := ⟨a.x * b.x, a.y * b.y⟩

end Vec2

/-- RGBA color with components in `[0,1]` (`src/scene/types.rs`, `Color`). -/
structure Color where
  r : ℚ
  g : ℚ
  b : ℚ
  a : ℚ
  deriving DecidableEq, Repr

namespace Color

def new (r g b a : ℚ) : Color := ⟨r, g, b, a⟩

def rgb (r g b : ℚ) : Color := ⟨r, g, b, 1⟩

def black : Color := rgb 0 0 0

def white : Color := rgb 1 1 1

end Color

/-- 2D transform (`src/scene/types.rs`, `Transform2D`).  Only the data is
needed by the claims below; `transform_point` involves `sin`/`cos` and every
code path the claims touch applies it at the identity transform only. -/
structure Transform2D where
  position : Vec2
  scale : Vec2
  rotation : ℚ
  anchor : Vec2
  deriving DecidableEq, Repr

namespace Transform2D

def identity : Transform2D := ⟨Vec2.ZERO, Vec2.ONE, 0, Vec2.ZERO⟩

end Transform2D

/-- Stroke styling (`StrokeStyle`). -/
structure StrokeStyle where
  color : Color
  width : ℚ
  deriving DecidableEq, Repr

/-- Fill/stroke styling (`ShapeStyle`). -/
structure ShapeStyle where
  fill : Option Color
  stroke : Option StrokeStyle
  deriving DecidableEq, Repr

namespace ShapeStyle

def fill_only (c : Color) : ShapeStyle := ⟨some c, none⟩

def stroke_only (s : StrokeStyle) : ShapeStyle := ⟨none, some s⟩

end ShapeStyle

/-- Path command (`src/scene/shape.rs` `PathCommand`, including the `ArcTo`
variant used by `src/scene/svg_path.rs` and `src/gpu/tessellation.rs`; the
`shape.rs` snapshot in the tree predates `ArcTo`).  The Rust field `to` is a
reserved token in Lean and is rendered `toPt` throughout this file. -/
inductive PathCommand where
  | MoveTo (p : Vec2)
  | LineTo (p : Vec2)
  | QuadraticTo (control : Vec2) (toPt : Vec2)
  | CubicTo (ctrl1 : Vec2) (ctrl2 : Vec2) (toPt : Vec2)
  | ArcTo (rx : ℚ) (ry : ℚ) (x_rotation : ℚ) (large_arc : Bool) (sweep : Bool) (toPt : Vec2)
  | Close
  deriving DecidableEq, Repr

/-- Shape geometry variants (`ShapeGeometry`). -/
inductive ShapeGeometry where
  | Polygon (points : List Vec2)
  | Rectangle (width : ℚ) (height : ℚ) (corner_radius : ℚ)
  | Ellipse (rx : ℚ) (ry : ℚ)
  | Path (commands : List PathCommand)
  deriving DecidableEq, Repr

/-- Axis-aligned bounding box (`BBox`). -/
structure BBox where
  min : Vec2
  max : Vec2
  deriving DecidableEq, Repr

namespace BBox

def new (min max : Vec2) : BBox := ⟨min, max⟩

/-- `BBox::from_points`: `None` on an empty slice, otherwise the fold of
component-wise min/max over the points. -/
def from_points : List Vec2 → Option BBox
  | [] => none
  | p :: rest =>
      some (rest.foldl (fun bb q => ⟨bb.min.vmin q, bb.max.vmax q⟩) ⟨p, p⟩)

/-- `BBox::contains` (closed box). -/
def contains (bb : BBox) (p : Vec2) : Bool :=
  bb.min.x ≤ p.x && p.x ≤ bb.max.x && bb.min.y ≤ p.y && p.y ≤ bb.max.y

/-- `BBox::union`. -/
def union (bb other : BBox) : BBox :=
  ⟨bb.min.vmin other.min, bb.max.vmax other.max⟩

end BBox

namespace ShapeGeometry

def polygon (points : List Vec2) : ShapeGeometry := Polygon points

def rectangle (width height : ℚ) : ShapeGeometry := Rectangle width height 0

def ellipse (rx ry : ℚ) : ShapeGeometry := Ellipse rx ry

/-- `ShapeGeometry::local_bounds`: bounding box of the geometry before any
transform.  For `Path`, the command end points are collected (control points
are ignored); the `ArcTo` end point is treated like the other `*To` commands. -/
def local_bounds : ShapeGeometry → BBox
  | Polygon points =>
      (BBox.from_points points).getD (BBox.new Vec2.ZERO Vec2.ZERO)
  | Rectangle width height _ =>
      BBox.new Vec2.ZERO ⟨width, height⟩
  | Ellipse rx ry =>
      BBox.new ⟨-rx, -ry⟩ ⟨rx, ry⟩
  | Path commands =>
      let points : List Vec2 := commands.filterMap (fun cmd =>
        match cmd with
        | .MoveTo p => some p
        | .LineTo p => some p
        | .QuadraticTo _ q => some q
        | .CubicTo _ _ q => some q
        | .ArcTo _ _ _ _ _ q => some q
        | .Close => none)
      (BBox.from_points points).getD (BBox.new Vec2.ZERO Vec2.ZERO)

end ShapeGeometry

/-- A shape in the scene graph (`Shape`). -/
structure Shape where
  id : ℕ
  geometry : ShapeGeometry
  transform : Transform2D
  style : ShapeStyle
  dirty : Bool
  deriving DecidableEq, Repr

namespace Shape

/-- `Shape::with_id` (fresh shapes are created with `dirty = true`). -/
def with_id (id : ℕ) (geometry : ShapeGeometry) (style : ShapeStyle) : Shape :=
  ⟨id, geometry, Transform2D.identity, style, true⟩

/-- `Shape::clear_dirty`. -/
def clear_dirty (s : Shape) : Shape := { s with dirty := false }

end Shape

/-- GPU vertex (`src/gpu/vertex.rs` `Vertex`); `[f32;2]` position and
`[f32;4]` color are modelled by `Vec2` and `Color`. -/
structure Vertex where
  position : Vec2
  color : Color
  deriving DecidableEq, Repr

/-- Vertex/index batch (`Mesh`). -/
structure Mesh where
  vertices : List Vertex
  indices : List ℕ
  deriving DecidableEq, Repr

namespace Mesh

def new : Mesh := ⟨[], []⟩

/-- `Mesh::extend`: append `other`, rebasing its indices by the current
vertex count. -/
def extend (m other : Mesh) : Mesh :=
  { vertices := m.vertices ++ other.vertices
    indices := m.indices ++ other.indices.map (· + m.vertices.length) }

def is_empty (m : Mesh) : Bool := m.vertices.isEmpty

end Mesh

/-! ## Tessellation model (`src/gpu/tessellation.rs`)

The repository feeds lyon `Path`s to lyon's `FillTessellator` /
`StrokeTessellator`.  Lyon is an external crate, so its output is modelled
from the spec (§4.2: curves are flattened to line segments within a
tolerance, the flattened closed path is triangulated; the stroke triangulator
widens the path by half the line width on each side):

* Curve flattening is modelled as uniform parameter sampling with
  `curveSegments` segments per curve; every emitted vertex lies on the exact
  curve, which is the property the bounds claims depend on.
* Fill tessellation of a flattened closed path is modelled as a triangle fan
  over the flattened points: the vertex positions are exactly the flattened
  path points.
* Stroke tessellation is modelled as an under-approximation that emits, for
  each axis-aligned edge of the flattened path, the four corner points of the
  edge's widened quad (offset by half the line width on each side); edges
  that are not axis-aligned contribute no modelled vertices (their offsets
  need irrational unit normals).  Every modelled vertex is a point any
  width-`w` stroke triangulation must cover.

The path construction that is fed to lyon (which points and curves make up
each geometry's outline) is embedded faithfully from the source.  The
`transform` parameter of the source's tessellation helpers is always the
identity transform on the code paths the claims touch
(`tessellate_shape_at_origin` passes `Transform2D::identity()`), under which
`transform_point` is the identity map, so it is elided here. -/

/-- Quadratic Bézier point at parameter `t`. -/
def quadPoint (p0 c p1 : Vec2) (t : ℚ) : Vec2 :=
  ⟨(1 - t) ^ 2 * p0.x + 2 * t * (1 - t) * c.x + t ^ 2 * p1.x,
   (1 - t) ^ 2 * p0.y + 2 * t * (1 - t) * c.y + t ^ 2 * p1.y⟩

/-- Cubic Bézier point at parameter `t`. -/
def cubicPoint (p0 c1 c2 p1 : Vec2) (t : ℚ) : Vec2 :=
  ⟨(1 - t) ^ 3 * p0.x + 3 * t * (1 - t) ^ 2 * c1.x + 3 * t ^ 2 * (1 - t) * c2.x + t ^ 3 * p1.x,
   (1 - t) ^ 3 * p0.y + 3 * t * (1 - t) ^ 2 * c1.y + 3 * t ^ 2 * (1 - t) * c2.y + t ^ 3 * p1.y⟩

/-- Number of line segments the flattening model uses per curve
(stands in for lyon's tolerance-driven segment count; the claims only depend
on the sample points lying on the curve). -/
def curveSegments : ℕ := 16

/-- Flattening model of `quadratic_bezier_to`: the emitted points after the
current point, i.e. the curve sampled at `t = (i+1)/curveSegments`.  The last
sample is the curve end point. -/
def flattenQuadTail (p0 c p1 : Vec2) : List Vec2 :=
  (List.range curveSegments).map
    (fun (i : ℕ) => quadPoint p0 c p1 ((i + 1 : ℚ) / curveSegments))

/-- Flattening model of `cubic_bezier_to`, as `flattenQuadTail`. -/
def flattenCubicTail (p0 c1 c2 p1 : Vec2) : List Vec2 :=
  (List.range curveSegments).map
    (fun (i : ℕ) => cubicPoint p0 c1 c2 p1 ((i + 1 : ℚ) / curveSegments))

/-- Flattened outline of the rounded-rectangle path built by
`tessellate_rectangle_fill` / `tessellate_rectangle_stroke` for
`corner_radius > 0`: begin at `(r,0)`, edges and quadratic corner arcs in
source order (`r` is the clamped radius). -/
def roundedRectPoints (width height r : ℚ) : List Vec2 :=
  ⟨r, 0⟩ :: ⟨width - r, 0⟩ ::
    (flattenQuadTail ⟨width - r, 0⟩ ⟨width, 0⟩ ⟨width, r⟩ ++
     ⟨width, height - r⟩ ::
       (flattenQuadTail ⟨width, height - r⟩ ⟨width, height⟩ ⟨width - r, height⟩ ++
        ⟨r, height⟩ ::
          (flattenQuadTail ⟨r, height⟩ ⟨0, height⟩ ⟨0, height - r⟩ ++
           ⟨0, r⟩ ::
             flattenQuadTail ⟨0, r⟩ ⟨0, 0⟩ ⟨r, 0⟩)))

/-- Flattened outline of the rectangle path: four corners for a sharp
rectangle (`corner_radius <= 0.0`), otherwise the rounded outline with the
radius clamped to `min(corner_radius, width/2, height/2)`. -/
def rectanglePoints (width height corner_radius : ℚ) : List Vec2 :=
  if corner_radius ≤ 0 then
    [⟨0, 0⟩, ⟨width, 0⟩, ⟨width, height⟩, ⟨0, height⟩]
  else
    roundedRectPoints width height (min (min corner_radius (width / 2)) (height / 2))

/-- The magic cubic-arc constant from `tessellate_ellipse_fill`
(`k = 0.5522847498`), as an exact rational. -/
def ellipseK : ℚ := 5522847498 / 10000000000

/-- Flattened outline of the 4-cubic ellipse path built by
`tessellate_ellipse_fill` / `tessellate_ellipse_stroke`: start at `(rx,0)`,
then the four quadrant cubics in source order. -/
def ellipsePoints (rx ry : ℚ) : List Vec2 :=
  let kx := rx * ellipseK
  let ky := ry * ellipseK
  ⟨rx, 0⟩ ::
    (flattenCubicTail ⟨rx, 0⟩ ⟨rx, ky⟩ ⟨kx, ry⟩ ⟨0, ry⟩ ++
     (flattenCubicTail ⟨0, ry⟩ ⟨-kx, ry⟩ ⟨-rx, ky⟩ ⟨-rx, 0⟩ ++
      (flattenCubicTail ⟨-rx, 0⟩ ⟨-rx, -ky⟩ ⟨-kx, -ry⟩ ⟨0, -ry⟩ ++
       flattenCubicTail ⟨0, -ry⟩ ⟨kx, -ry⟩ ⟨rx, -ky⟩ ⟨rx, 0⟩)))

/-- Walk state of the path builder in `tessellate_path_fill` /
`tessellate_path_stroke`: the `started` flag and `current_pos`. -/
structure PathWalk where
  started : Bool
  current_pos : Vec2

/-- Points emitted for one `PathCommand` by the path builder walk
(`tessellate_path_fill`, lines 775-844 of `tessellation.rs`).  Commands
before the first `MoveTo` are ignored; `Close` ends the sub-path without
emitting a point.  An `ArcTo` is flattened through `arc_to_beziers`
(trigonometric, modelled separately over `ℝ` for the arc claim); in this
rational-valued model it contributes its end point only, which lies on the
arc. -/
def pathCommandPoints (st : PathWalk) : PathCommand → List Vec2 × PathWalk
  | .MoveTo p => ([p], ⟨true, p⟩)
  | .LineTo p => if st.started then ([p], ⟨true, p⟩) else ([], st)
  | .QuadraticTo c q =>
      if st.started then (flattenQuadTail st.current_pos c q, ⟨true, q⟩) else ([], st)
  | .CubicTo c1 c2 q =>
      if st.started then (flattenCubicTail st.current_pos c1 c2 q, ⟨true, q⟩) else ([], st)
  | .ArcTo _ _ _ _ _ q => if st.started then ([q], ⟨true, q⟩) else ([], st)
  | .Close => ([], ⟨false, st.current_pos⟩)

/-- All points of the flattened path built from a command list. -/
def pathPointsAux (st : PathWalk) : List PathCommand → List Vec2
  | [] => []
  | cmd :: rest =>
      let (pts, st') := pathCommandPoints st cmd
      pts ++ pathPointsAux st' rest

def pathPoints (commands : List PathCommand) : List Vec2 :=
  pathPointsAux ⟨false, Vec2.ZERO⟩ commands

/-- Triangle-fan index model for a filled outline of `n` points (stands in
for lyon's triangulation; the indices reference only the `n` outline
vertices). -/
def fanIndices (n : ℕ) : List ℕ :=
  (List.range (n - 2)).flatMap (fun i => [0, i + 1, i + 2])

/-- Build a mesh whose vertices are the given points with the given color. -/
def meshOfPoints (points : List Vec2) (color : Color) : Mesh :=
  { vertices := points.map (fun p => ⟨p, color⟩)
    indices := fanIndices points.length }

/-- Stroke model for one edge: the four corners of the half-width-offset
quad when the edge is axis-aligned, nothing otherwise (see the section
comment; this under-approximates any stroke triangulation of the edge). -/
def strokeEdgeVertices (w : ℚ) (a b : Vec2) : List Vec2 :=
  if a.y = b.y ∧ ¬a.x = b.x then
    [⟨a.x, a.y - w / 2⟩, ⟨a.x, a.y + w / 2⟩, ⟨b.x, b.y - w / 2⟩, ⟨b.x, b.y + w / 2⟩]
  else if a.x = b.x ∧ ¬a.y = b.y then
    [⟨a.x - w / 2, a.y⟩, ⟨a.x + w / 2, a.y⟩, ⟨b.x - w / 2, b.y⟩, ⟨b.x + w / 2, b.y⟩]
  else []

/-- Consecutive edges of a closed outline (each point to the next, last back
to first, matching `builder.close()`). -/
def closedEdges : List Vec2 → List (Vec2 × Vec2)
  | [] => []
  | p :: rest => (p :: rest).zip (rest ++ [p])

/-- Stroke mesh model for a closed outline. -/
def strokeMeshOfPoints (points : List Vec2) (color : Color) (w : ℚ) : Mesh :=
  let verts := (closedEdges points).flatMap (fun e => strokeEdgeVertices w e.1 e.2)
  { vertices := verts.map (fun p => ⟨p, color⟩)
    indices := fanIndices verts.length }

/-- `Tessellator::tessellate_polygon_fill`: `None` for fewer than 3 points,
otherwise the fill mesh of the closed polygon outline (lyon emits the path
points themselves as the fill vertices of a straight-edged path). -/
def tessellate_polygon_fill (points : List Vec2) (color : Color) : Option Mesh :=
  if points.length < 3 then none
  else some (meshOfPoints points color)

/-- `Tessellator::tessellate_polygon_stroke`: `None` for fewer than 2 points. -/
def tessellate_polygon_stroke (points : List Vec2) (color : Color) (width : ℚ) :
    Option Mesh :=
  if points.length < 2 then none
  else some (strokeMeshOfPoints points color width)

/-- `Tessellator::tessellate_rectangle_fill`. -/
def tessellate_rectangle_fill (width height corner_radius : ℚ) (color : Color) :
    Option Mesh :=
  some (meshOfPoints (rectanglePoints width height corner_radius) color)

/-- `Tessellator::tessellate_rectangle_stroke`. -/
def tessellate_rectangle_stroke (width height corner_radius : ℚ) (color : Color)
    (stroke_width : ℚ) : Option Mesh :=
  some (strokeMeshOfPoints (rectanglePoints width height corner_radius) color stroke_width)

/-- `Tessellator::tessellate_ellipse_fill`. -/
def tessellate_ellipse_fill (rx ry : ℚ) (color : Color) : Option Mesh :=
  some (meshOfPoints (ellipsePoints rx ry) color)

/-- `Tessellator::tessellate_ellipse_stroke`. -/
def tessellate_ellipse_stroke (rx ry : ℚ) (color : Color) (width : ℚ) : Option Mesh :=
  some (strokeMeshOfPoints (ellipsePoints rx ry) color width)

/-- `Tessellator::tessellate_path_fill`: `None` on an empty command list or
when no vertex is produced. -/
def tessellate_path_fill (commands : List PathCommand) (color : Color) : Option Mesh :=
  if commands.isEmpty then none
  else
    let mesh := meshOfPoints (pathPoints commands) color
    if mesh.vertices.isEmpty then none else some mesh

/-- `Tessellator::tessellate_path_stroke`. -/
def tessellate_path_stroke (commands : List PathCommand) (color : Color) (width : ℚ) :
    Option Mesh :=
  if commands.isEmpty then none
  else
    let mesh := strokeMeshOfPoints (pathPoints commands) color width
    if mesh.vertices.isEmpty then none else some mesh

/-- `Tessellator::tessellate_geometry_fill` (dispatch over the geometry
variants; the identity transform is elided, see the section comment). -/
def tessellate_geometry_fill (geometry : ShapeGeometry) (color : Color) : Option Mesh :=
  match geometry with
  | .Polygon points => tessellate_polygon_fill points color
  | .Rectangle width height corner_radius =>
      tessellate_rectangle_fill width height corner_radius color
  | .Ellipse rx ry => tessellate_ellipse_fill rx ry color
  | .Path commands => tessellate_path_fill commands color

/-- `Tessellator::tessellate_geometry_stroke`. -/
def tessellate_geometry_stroke (geometry : ShapeGeometry) (color : Color) (width : ℚ) :
    Option Mesh :=
  match geometry with
  | .Polygon points => tessellate_polygon_stroke points color width
  | .Rectangle w h corner_radius =>
      tessellate_rectangle_stroke w h corner_radius color width
  | .Ellipse rx ry => tessellate_ellipse_stroke rx ry color width
  | .Path commands => tessellate_path_stroke commands color width

/-- `Tessellator::tessellate_shape_at_origin`: fill mesh (if a fill color is
set) extended by the stroke mesh (if a stroke is set), geometry taken at the
identity transform.  Only `geometry` and `style` of the shape are read. -/
def tessellate_shape_at_origin (s : Shape) : Mesh :=
  let mesh := Mesh.new
  let mesh :=
    match s.style.fill with
    | some fill_color =>
        match tessellate_geometry_fill s.geometry fill_color with
        | some fill_mesh => mesh.extend fill_mesh
        | none => mesh
    | none => mesh
  match s.style.stroke with
  | some stroke =>
      match tessellate_geometry_stroke s.geometry stroke.color stroke.width with
      | some stroke_mesh => mesh.extend stroke_mesh
      | none => mesh
  | none => mesh

/-- The tessellator's mesh cache (`HashMap<u64, Mesh>`), as an association
list; `cacheInsert` replaces any previous binding for the key. -/
abbrev MeshCache : Type := List (ℕ × Mesh)

/-- `HashMap::get` on the cache. -/
def cacheLookup (c : MeshCache) (id : ℕ) : Option Mesh :=
  ((c : List (ℕ × Mesh)).find? (fun e => e.1 = id)).map (·.2)

/-- `HashMap::insert` on the cache (replaces an existing binding). -/
def cacheInsert (c : MeshCache) (id : ℕ) (m : Mesh) : MeshCache :=
  (id, m) :: (c : List (ℕ × Mesh)).filter (fun e => ¬e.1 = id)

/-- `HashMap::remove` (`Tessellator::invalidate_shape`). -/
def cacheRemove (c : MeshCache) (id : ℕ) : MeshCache :=
  (c : List (ℕ × Mesh)).filter (fun e => ¬e.1 = id)

/-- `Tessellator::get_or_tessellate_shape`: re-tessellate (at origin) when
the shape is dirty or absent from the cache, insert keyed by `shape.id`,
then return the cache entry (the source's `get(..).unwrap()` is modelled by
`Option.getD`; the entry is always present after the conditional insert). -/
def get_or_tessellate_shape (c : MeshCache) (s : Shape) : Mesh × MeshCache :=
  let c' :=
    if s.dirty || (cacheLookup c s.id).isNone then
      cacheInsert c s.id (tessellate_shape_at_origin s)
    else c
  ((cacheLookup c' s.id).getD Mesh.new, c')

/-! ## Renderer capacity checks (`src/gpu/renderer.rs`) -/

/-- Maximum vertices per draw call (`MAX_VERTICES`). -/
def MAX_VERTICES : ℕ := 65536

/-- Maximum indices per draw call (`MAX_INDICES = MAX_VERTICES * 3`). -/
def MAX_INDICES : ℕ := MAX_VERTICES * 3

/-- `Renderer::render` (lines 293-370): the two capacity checks, then the
draw.  The GPU side (surface acquisition, buffer upload, submission) is
external to the embedding and modelled as succeeding; `Except.ok` carries the
number of indices handed to `draw_indexed`, and the error paths return before
any upload or draw is issued. -/
def Renderer.render (mesh : Mesh) : Except String ℕ :=
  if mesh.vertices.length > MAX_VERTICES then
    Except.error ("Too many vertices: " ++ toString mesh.vertices.length ++
      " (max " ++ toString MAX_VERTICES ++ ")")
  else if mesh.indices.length > MAX_INDICES then
    Except.error ("Too many indices: " ++ toString mesh.indices.length ++
      " (max " ++ toString MAX_INDICES ++ ")")
  else
    Except.ok mesh.indices.length

/-! ## Scene graph (`src/scene/graph.rs`)

`Vec::remove`/`insert`/`swap` at the position of the first shape whose id
matches are embedded as recursions over the shape list that rewrite the
first match; these are exactly the source's `position`-then-mutate pairs. -/

/-- Scene graph state. -/
structure SceneGraph where
  shapes : List Shape
  dirty_shapes : List ℕ
  scene_dirty : Bool
  selection : List ℕ
  deriving DecidableEq, Repr

namespace SceneGraph

/-- `SceneGraph::new`. -/
def new : SceneGraph := ⟨[], [], true, []⟩

/-- `HashSet::insert` on the dirty-id set. -/
def setInsert (l : List ℕ) (id : ℕ) : List ℕ := l.insert id

/-- `SceneGraph::add_shape`. -/
def add_shape (g : SceneGraph) (s : Shape) : SceneGraph :=
  { g with
      dirty_shapes := setInsert g.dirty_shapes s.id
      scene_dirty := true
      shapes := g.shapes ++ [s] }

/-- Remove the first shape whose id matches (the `position` + `Vec::remove`
pair in `remove_shape`). -/
def removeFirstById : List Shape → ℕ → List Shape
  | [], _ => []
  | s :: rest, id => if s.id = id then rest else s :: removeFirstById rest id

/-- Rewrite the first shape whose id matches (`iter_mut().find(..)` followed
by a field update). -/
def modifyFirstById (f : Shape → Shape) : List Shape → ℕ → List Shape
  | [], _ => []
  | s :: rest, id => if s.id = id then f s :: rest else s :: modifyFirstById f rest id

/-- Whether some shape with the id is present. -/
def hasId (shapes : List Shape) (id : ℕ) : Bool := shapes.any (fun s => s.id = id)

/-- `SceneGraph::remove_shape` (the returned `Option<Shape>` is dropped; only
the state transition matters for the claims). -/
def remove_shape (g : SceneGraph) (id : ℕ) : SceneGraph :=
  if hasId g.shapes id then
    { g with
        dirty_shapes := g.dirty_shapes.erase id
        selection := g.selection.filter (fun sid => ¬sid = id)
        scene_dirty := true
        shapes := removeFirstById g.shapes id }
  else g

/-- `SceneGraph::get_shape`. -/
def get_shape (g : SceneGraph) (id : ℕ) : Option Shape :=
  g.shapes.find? (fun s => s.id = id)

/-- `SceneGraph::get_shape_mut`'s own effect: when the id is present, the id
is inserted into the dirty set and `scene_dirty` is raised (the returned
`&mut Shape` is for the caller; mutations through it are the callers'
operations, not this one's). -/
def get_shape_mut (g : SceneGraph) (id : ℕ) : SceneGraph :=
  if hasId g.shapes id then
    { g with dirty_shapes := setInsert g.dirty_shapes id, scene_dirty := true }
  else g

/-- `SceneGraph::set_transform`. -/
def set_transform (g : SceneGraph) (id : ℕ) (t : Transform2D) : SceneGraph :=
  if hasId g.shapes id then
    { g with
        shapes := modifyFirstById (fun s => { s with transform := t, dirty := true }) g.shapes id
        dirty_shapes := setInsert g.dirty_shapes id
        scene_dirty := true }
  else g

/-- `SceneGraph::set_style`. -/
def set_style (g : SceneGraph) (id : ℕ) (style : ShapeStyle) : SceneGraph :=
  if hasId g.shapes id then
    { g with
        shapes := modifyFirstById (fun s => { s with style := style, dirty := true }) g.shapes id
        dirty_shapes := setInsert g.dirty_shapes id
        scene_dirty := true }
  else g

/-- `SceneGraph::set_geometry`. -/
def set_geometry (g : SceneGraph) (id : ℕ) (geometry : ShapeGeometry) : SceneGraph :=
  if hasId g.shapes id then
    { g with
        shapes := modifyFirstById (fun s => { s with geometry := geometry, dirty := true }) g.shapes id
        dirty_shapes := setInsert g.dirty_shapes id
        scene_dirty := true }
  else g

/-- `SceneGraph::is_dirty`. -/
def is_dirty (g : SceneGraph) : Bool := g.scene_dirty

/-- `SceneGraph::dirty_shape_ids`. -/
def dirty_shape_ids (g : SceneGraph) : List ℕ := g.dirty_shapes

/-- `SceneGraph::clear_dirty`. -/
def clear_dirty (g : SceneGraph) : SceneGraph :=
  { g with
      dirty_shapes := []
      scene_dirty := false
      shapes := g.shapes.map (fun s => { s with dirty := false }) }

/-- `SceneGraph::mark_dirty`. -/
def mark_dirty (g : SceneGraph) : SceneGraph :=
  { g with
      scene_dirty := true
      shapes := g.shapes.map (fun s => { s with dirty := true })
      dirty_shapes := g.shapes.foldl (fun acc s => setInsert acc s.id) g.dirty_shapes }

/-- `SceneGraph::select`: push the id only when a shape with it exists and it
is not already selected. -/
def select (g : SceneGraph) (id : ℕ) : SceneGraph :=
  if (g.get_shape id).isSome ∧ ¬g.selection.contains id then
    { g with selection := g.selection ++ [id] }
  else g

/-- `SceneGraph::select_multiple`. -/
def select_multiple (g : SceneGraph) (ids : List ℕ) : SceneGraph :=
  ids.foldl select g

/-- `SceneGraph::deselect` (`Vec::retain`). -/
def deselect (g : SceneGraph) (id : ℕ) : SceneGraph :=
  { g with selection := g.selection.filter (fun sid => ¬sid = id) }

/-- `SceneGraph::clear_selection`. -/
def clear_selection (g : SceneGraph) : SceneGraph :=
  { g with selection := [] }

/-- `SceneGraph::is_selected`. -/
def is_selected (g : SceneGraph) (id : ℕ) : Bool := g.selection.contains id

/-- `SceneGraph::bring_to_front`: remove the first match and push it to the
end. -/
def bring_to_front (g : SceneGraph) (id : ℕ) : SceneGraph :=
  match g.get_shape id with
  | some s =>
      { g with shapes := removeFirstById g.shapes id ++ [s], scene_dirty := true }
  | none => g

/-- `SceneGraph::send_to_back`: remove the first match and insert it at the
front. -/
def send_to_back (g : SceneGraph) (id : ℕ) : SceneGraph :=
  match g.get_shape id with
  | some s =>
      { g with shapes := s :: removeFirstById g.shapes id, scene_dirty := true }
  | none => g

/-- `bring_forward`'s swap of the first match with its successor; the `Bool`
reports whether a swap happened (`pos < len - 1`). -/
def swapForward : List Shape → ℕ → List Shape × Bool
  | [], _ => ([], false)
  | [s], _ => ([s], false)
  | s :: t :: rest, id =>
      if s.id = id then (t :: s :: rest, true)
      else
        let (l, moved) := swapForward (t :: rest) id
        (s :: l, moved)

/-- `SceneGraph::bring_forward`. -/
def bring_forward (g : SceneGraph) (id : ℕ) : SceneGraph :=
  let (l, moved) := swapForward g.shapes id
  if moved then { g with shapes := l, scene_dirty := true } else g

/-- `send_backward`'s swap of the first match with its predecessor; no move
when the first match is at position 0. -/
def swapBackward : List Shape → ℕ → List Shape × Bool
  | [], _ => ([], false)
  | [s], _ => ([s], false)
  | s :: t :: rest, id =>
      if s.id = id then (s :: t :: rest, false)
      else if t.id = id then (t :: s :: rest, true)
      else
        let (l, moved) := swapBackward (t :: rest) id
        (s :: l, moved)

/-- `SceneGraph::send_backward`. -/
def send_backward (g : SceneGraph) (id : ℕ) : SceneGraph :=
  let (l, moved) := swapBackward g.shapes id
  if moved then { g with shapes := l, scene_dirty := true } else g

/-- `SceneGraph::transform_selection`: translate/scale every selected shape
(first match per id), mark each dirty, then raise `scene_dirty` when the
selection is nonempty. -/
def transform_selection (g : SceneGraph) (delta_position delta_scale : Vec2) : SceneGraph :=
  let g' := g.selection.foldl (fun acc id =>
    if hasId acc.shapes id then
      { acc with
          shapes := modifyFirstById (fun s =>
            { s with
                transform :=
                  { s.transform with
                      position := s.transform.position.add delta_position
                      scale := s.transform.scale.mul delta_scale }
                dirty := true }) acc.shapes id
          dirty_shapes := setInsert acc.dirty_shapes id }
    else acc) g
  if g.selection.isEmpty then g' else { g' with scene_dirty := true }

/-- `SceneGraph::delete_selection`. -/
def delete_selection (g : SceneGraph) : SceneGraph :=
  g.selection.foldl remove_shape g

end SceneGraph

/-- One public scene-graph operation (used to state reachability
invariants). -/
inductive SceneOp where
  | addShape (s : Shape)
  | removeShape (id : ℕ)
  | getShapeMut (id : ℕ)
  | setTransform (id : ℕ) (t : Transform2D)
  | setStyle (id : ℕ) (style : ShapeStyle)
  | setGeometry (id : ℕ) (geometry : ShapeGeometry)
  | clearDirty
  | markDirty
  | doSelect (id : ℕ)
  | selectMultiple (ids : List ℕ)
  | doDeselect (id : ℕ)
  | clearSelection
  | bringToFront (id : ℕ)
  | sendToBack (id : ℕ)
  | bringForward (id : ℕ)
  | sendBackward (id : ℕ)
  | transformSelection (delta_position delta_scale : Vec2)
  | deleteSelection

/-- Apply one operation. -/
def SceneGraph.applyOp (g : SceneGraph) : SceneOp → SceneGraph
  | .addShape s => g.add_shape s
  | .removeShape id => g.remove_shape id
  | .getShapeMut id => g.get_shape_mut id
  | .setTransform id t => g.set_transform id t
  | .setStyle id style => g.set_style id style
  | .setGeometry id geometry => g.set_geometry id geometry
  | .clearDirty => g.clear_dirty
  | .markDirty => g.mark_dirty
  | .doSelect id => g.select id
  | .selectMultiple ids => g.select_multiple ids
  | .doDeselect id => g.deselect id
  | .clearSelection => g.clear_selection
  | .bringToFront id => g.bring_to_front id
  | .sendToBack id => g.send_to_back id
  | .bringForward id => g.bring_forward id
  | .sendBackward id => g.send_backward id
  | .transformSelection dp ds => g.transform_selection dp ds
  | .deleteSelection => g.delete_selection

/-- Apply a sequence of operations. -/
def SceneGraph.applyOps (g : SceneGraph) (ops : List SceneOp) : SceneGraph :=
  ops.foldl SceneGraph.applyOp g

/-- The selection invariant of claim C10: no duplicate selected ids, and
every selected id names a shape in the shape list. -/
def SceneGraph.selectionInvariant (g : SceneGraph) : Prop :=
  g.selection.Nodup ∧ ∀ id ∈ g.selection, SceneGraph.hasId g.shapes id = true

/-- The render effect of `gpu_canvas.rs` (lines 174-205): every shape of the
scene graph is run through `get_or_tessellate_shape`, which reads the shapes
through `&Shape` and therefore cannot modify the scene graph; the pair
returns the (unchanged) graph and the updated cache. -/
def frame_tessellation (g : SceneGraph) (c : MeshCache) : SceneGraph × MeshCache :=
  (g, g.shapes.foldl (fun acc s => (get_or_tessellate_shape acc s).2) c)

/-! ## Color hex round trip (`src/scene/types.rs`)

Strings are modelled as `List Char`.  `f32::round` is `⌊x + 1/2⌋`
(round-half-away-from-zero agrees with round-half-up on the non-negative
values this code path produces), and the Rust saturating `as u8` cast clamps
to `[0, 255]`. -/

/-- Lower-case hex digit for `n < 16` (the `{:02x}` format). -/
def hexDigitChar (n : ℕ) : Char :=
  if n < 10 then Char.ofNat ('0'.toNat + n) else Char.ofNat ('a'.toNat + (n - 10))

/-- Two-digit lower-case hex rendering of a byte. -/
def byteToHexChars (n : ℕ) : List Char :=
  [hexDigitChar (n / 16), hexDigitChar (n % 16)]

/-- Value of one hex digit (`u8::from_str_radix(_, 16)` accepts both cases). -/
def hexDigitVal (c : Char) : Option ℕ :=
  if '0' ≤ c ∧ c ≤ '9' then some (c.toNat - '0'.toNat)
  else if 'a' ≤ c ∧ c ≤ 'f' then some (c.toNat - 'a'.toNat + 10)
  else if 'A' ≤ c ∧ c ≤ 'F' then some (c.toNat - 'A'.toNat + 10)
  else none

/-- `u8::from_str_radix` on a two-character slice. -/
def parseHexByte (c1 c2 : Char) : Option ℕ :=
  match hexDigitVal c1, hexDigitVal c2 with
  | some d1, some d2 => some (d1 * 16 + d2)
  | _, _ => none

/-- `f32::round` on the non-negative values of the hex path. -/
def rustRound (x : ℚ) : ℤ := ⌊x + 1 / 2⌋

/-- Rust saturating float-to-`u8` cast. -/
def castU8 (i : ℤ) : ℕ := (max 0 (min 255 i)).toNat

/-- The byte a color component is quantized to by `to_hex`:
`(x * 255.0).round() as u8`. -/
def quantByte (x : ℚ) : ℕ := castU8 (rustRound (x * 255))

/-- `Color::to_hex`: `#` followed by three two-digit lower-case hex bytes. -/
def Color.to_hex (c : Color) : List Char :=
  '#' :: (byteToHexChars (quantByte c.r) ++
    (byteToHexChars (quantByte c.g) ++ byteToHexChars (quantByte c.b)))

/-- `Color::from_hex`: strip all leading `#` (`trim_start_matches`), require
exactly six characters, parse three hex bytes, divide by 255, alpha 1. -/
def Color.from_hex (s : List Char) : Option Color :=
  match s.dropWhile (fun c => c = '#') with
  | [c1, c2, c3, c4, c5, c6] =>
      match parseHexByte c1 c2, parseHexByte c3 c4, parseHexByte c5 c6 with
      | some r, some g, some b => some (Color.rgb ((r : ℚ) / 255) ((g : ℚ) / 255) ((b : ℚ) / 255))
      | _, _, _ => none
  | _ => none

/-! ## SVG path parser (`src/scene/svg_path.rs`)

The tokenizer's character stream is a `List Char`; each tokenizer method
returns its result together with the remaining stream.  Rust's Unicode
`char::is_alphabetic` is modelled as ASCII `Char.isAlpha` (all command
letters are ASCII).  The `while let` loops of the parser consume at least
one character per iteration; they are embedded with an explicit fuel that is
always instantiated with one more than the remaining stream length, which is
proved sufficient (`parseLoop_fuel`), making the embedded parser total on
every input, like the source. -/

def isWsComma (c : Char) : Bool := c.isWhitespace || c = ','

/-- `skip_whitespace_and_comma`. -/
def skip_whitespace_and_comma (cs : List Char) : List Char := cs.dropWhile isWsComma

/-- `PathTokenizer::next_command`: skip separators, consume and return an
alphabetic character, stop at anything else. -/
def next_command : List Char → Option Char × List Char
  | [] => (none, [])
  | c :: cs =>
      if c.isAlpha then (some c, cs)
      else if isWsComma c then next_command cs
      else (none, c :: cs)

/-- `PathTokenizer::peek_is_command` (it consumes the skipped separators). -/
def peek_is_command (cs : List Char) : Bool × List Char :=
  let cs' := skip_whitespace_and_comma cs
  (match cs' with
   | c :: _ => c.isAlpha
   | [] => false, cs')

/-- Scan an optional leading sign (collected characters, rest). -/
def scanSign : List Char → List Char × List Char
  | [] => ([], [])
  | c :: rest => if c = '-' ∨ c = '+' then ([c], rest) else ([], c :: rest)

/-- Scan a run of ASCII digits. -/
def scanDigits : List Char → List Char × List Char
  | [] => ([], [])
  | c :: rest =>
      if c.isDigit then
        let (d, r) := scanDigits rest
        (c :: d, r)
      else ([], c :: rest)

/-- Scan the optional fraction part (`.` followed by digits). -/
def scanFrac : List Char → List Char × List Char
  | '.' :: rest =>
      let (d2, r) := scanDigits rest
      ('.' :: d2, r)
  | cs => ([], cs)

/-- Scan the optional exponent part (`e`/`E`, optional sign, digits). -/
def scanExp : List Char → List Char × List Char
  | c :: rest =>
      if c = 'e' ∨ c = 'E' then
        let (es, r1) := scanSign rest
        let (d3, r2) := scanDigits r1
        (c :: (es ++ d3), r2)
      else ([], c :: rest)
  | [] => ([], [])

/-- The character-collection phase of `next_number` (after separator
skipping): sign, integer digits, optional fraction, optional exponent, in
source order.  Every consumed character is collected. -/
def collectNumberToken (cs : List Char) : List Char × List Char :=
  let (s1, cs1) := scanSign cs
  let (d1, cs2) := scanDigits cs1
  let (fr, cs3) := scanFrac cs2
  let (ex, cs4) := scanExp cs3
  (s1 ++ (d1 ++ (fr ++ ex)), cs4)

/-- Numeric value of a digit run. -/
def digitsVal (ds : List Char) : ℕ :=
  ds.foldl (fun acc c => acc * 10 + (c.toNat - '0'.toNat)) 0

/-- Model of `str::parse::<f32>` on tokens of the scanner's grammar
(`[sign] digits ['.' digits] [('e'|'E') [sign] digits]`): the parse succeeds
iff the token is fully consumed by that grammar, the mantissa has at least
one digit, and an exponent marker is followed by at least one digit; the
value is the exact rational value of the decimal (f32 rounding is not
modelled). -/
def parseF32Token (s : List Char) : Option ℚ :=
  let (sgn, s1) := scanSign s
  let (d1, s2) := scanDigits s1
  let (hasDot, d2, s3) :=
    match s2 with
    | '.' :: rest =>
        let (ds, r) := scanDigits rest
        (true, ds, r)
    | _ => (false, ([] : List Char), s2)
  let (hasExp, esgn, d3, s4) :=
    match s3 with
    | c :: rest =>
        if c = 'e' ∨ c = 'E' then
          let (es, r1) := scanSign rest
          let (ds, r2) := scanDigits r1
          (true, es, ds, r2)
        else (false, ([] : List Char), ([] : List Char), c :: rest)
    | [] => (false, ([] : List Char), ([] : List Char), ([] : List Char))
  if s4 = [] ∧ (d1 ≠ [] ∨ (hasDot ∧ d2 ≠ [])) ∧ (hasExp → d3 ≠ []) then
    -- Exact value of `[sign] d1 '.' d2 'e' [esgn] d3`.  The fraction and
    -- exponent factors are applied only when their digit runs are nonempty
    -- (when empty they would contribute the neutral `+ 0/1` and `* 10^0`,
    -- so the value is unchanged).
    let mantissa : ℚ :=
      if d2 = [] then (digitsVal d1 : ℚ)
      else (digitsVal d1 : ℚ) + (digitsVal d2 : ℚ) / (10 : ℚ) ^ d2.length
    let mantissa := if sgn = ['-'] then -mantissa else mantissa
    if d3 = [] then some mantissa
    else if esgn = ['-'] then some (mantissa / (10 : ℚ) ^ digitsVal d3)
    else some (mantissa * (10 : ℚ) ^ digitsVal d3)
  else none

/-- `PathTokenizer::next_number`. -/
def next_number (cs : List Char) : Option ℚ × List Char :=
  let cs1 := skip_whitespace_and_comma cs
  let (tok, rest) := collectNumberToken cs1
  if tok = [] ∨ tok = ['-'] ∨ tok = ['+'] then (none, rest)
  else (parseF32Token tok, rest)

/-- `PathTokenizer::next_point`. -/
def next_point (cs : List Char) : Option (ℚ × ℚ) × List Char :=
  let (isCmd, cs1) := peek_is_command cs
  if isCmd then (none, cs1)
  else
    match next_number cs1 with
    | (some x, cs2) =>
        match next_number cs2 with
        | (some y, cs3) => (some (x, y), cs3)
        | (none, cs3) => (none, cs3)
    | (none, cs2) => (none, cs2)

/-- `PathTokenizer::next_flag`. -/
def next_flag (cs : List Char) : Option Bool × List Char :=
  let cs1 := skip_whitespace_and_comma cs
  match cs1 with
  | '0' :: rest => (some false, rest)
  | '1' :: rest => (some true, rest)
  | _ => (none, cs1)

/-- Arc parameters (`ArcParams`). -/
structure ArcParams where
  rx : ℚ
  ry : ℚ
  x_rotation : ℚ
  large_arc : Bool
  sweep : Bool
  x : ℚ
  y : ℚ

/-- `PathTokenizer::next_arc`. -/
def next_arc (cs : List Char) : Option ArcParams × List Char :=
  let (isCmd, cs1) := peek_is_command cs
  if isCmd then (none, cs1)
  else
    match next_number cs1 with
    | (none, r) => (none, r)
    | (some rx, cs2) =>
        match next_number cs2 with
        | (none, r) => (none, r)
        | (some ry, cs3) =>
            match next_number cs3 with
            | (none, r) => (none, r)
            | (some xrot, cs4) =>
                match next_flag cs4 with
                | (none, r) => (none, r)
                | (some la, cs5) =>
                    match next_flag cs5 with
                    | (none, r) => (none, r)
                    | (some sw, cs6) =>
                        match next_number cs6 with
                        | (none, r) => (none, r)
                        | (some x, cs7) =>
                            match next_number cs7 with
                            | (none, r) => (none, r)
                            | (some y, cs8) => (some ⟨rx, ry, xrot, la, sw, x, y⟩, cs8)

/-- The `'M'` handler loop: first pair is a `MoveTo` (and sets the subpath
start), later pairs are `LineTo`s; for `'m'` every pair, including the
first, is offset from the current position (both relative branches of the
source add `current_pos`). -/
def moveLoop (fuel : ℕ) (is_relative first : Bool) (cur start : Vec2) (cs : List Char) :
    List PathCommand × Vec2 × Vec2 × List Char :=
  match fuel with
  | 0 => ([], cur, start, cs)
  | fuel + 1 =>
      match next_point cs with
      | (some (x, y), rest) =>
          let point : Vec2 := if is_relative then ⟨cur.x + x, cur.y + y⟩ else ⟨x, y⟩
          if first then
            let (cmds, cur', start', rest') := moveLoop fuel is_relative false point point rest
            (PathCommand.MoveTo point :: cmds, cur', start', rest')
          else
            let (cmds, cur', start', rest') := moveLoop fuel is_relative false point start rest
            (PathCommand.LineTo point :: cmds, cur', start', rest')
      | (none, rest) => ([], cur, start, rest)

/-- The `'L'` handler loop. -/
def lineLoop (fuel : ℕ) (is_relative : Bool) (cur : Vec2) (cs : List Char) :
    List PathCommand × Vec2 × List Char :=
  match fuel with
  | 0 => ([], cur, cs)
  | fuel + 1 =>
      match next_point cs with
      | (some (x, y), rest) =>
          let point : Vec2 := if is_relative then ⟨cur.x + x, cur.y + y⟩ else ⟨x, y⟩
          let (cmds, cur', rest') := lineLoop fuel is_relative point rest
          (PathCommand.LineTo point :: cmds, cur', rest')
      | (none, rest) => ([], cur, rest)

/-- The `'H'` handler loop. -/
def hLoop (fuel : ℕ) (is_relative : Bool) (cur : Vec2) (cs : List Char) :
    List PathCommand × Vec2 × List Char :=
  match fuel with
  | 0 => ([], cur, cs)
  | fuel + 1 =>
      match next_number cs with
      | (some x, rest) =>
          let new_x := if is_relative then cur.x + x else x
          let point : Vec2 := ⟨new_x, cur.y⟩
          let (cmds, cur', rest') := hLoop fuel is_relative point rest
          (PathCommand.LineTo point :: cmds, cur', rest')
      | (none, rest) => ([], cur, rest)

/-- The `'V'` handler loop. -/
def vLoop (fuel : ℕ) (is_relative : Bool) (cur : Vec2) (cs : List Char) :
    List PathCommand × Vec2 × List Char :=
  match fuel with
  | 0 => ([], cur, cs)
  | fuel + 1 =>
      match next_number cs with
      | (some y, rest) =>
          let new_y := if is_relative then cur.y + y else y
          let point : Vec2 := ⟨cur.x, new_y⟩
          let (cmds, cur', rest') := vLoop fuel is_relative point rest
          (PathCommand.LineTo point :: cmds, cur', rest')
      | (none, rest) => ([], cur, rest)

/-- The `'C'` handler loop.  Missing later points fall back to the previous
pair (`unwrap_or`); the last emitted `ctrl2` becomes the pending control
point. -/
def cubicLoop (fuel : ℕ) (is_relative : Bool) (cur : Vec2) (lc : Option Vec2)
    (cs : List Char) : List PathCommand × Vec2 × Option Vec2 × List Char :=
  match fuel with
  | 0 => ([], cur, lc, cs)
  | fuel + 1 =>
      match next_point cs with
      | (some (x1, y1), cs1) =>
          let (p2, cs2) := next_point cs1
          let (x2, y2) := p2.getD (x1, y1)
          let (p3, cs3) := next_point cs2
          let (x, y) := p3.getD (x2, y2)
          let ctrl1 : Vec2 := if is_relative then ⟨cur.x + x1, cur.y + y1⟩ else ⟨x1, y1⟩
          let ctrl2 : Vec2 := if is_relative then ⟨cur.x + x2, cur.y + y2⟩ else ⟨x2, y2⟩
          let pend : Vec2 := if is_relative then ⟨cur.x + x, cur.y + y⟩ else ⟨x, y⟩
          let (cmds, cur', lc', rest') := cubicLoop fuel is_relative pend (some ctrl2) cs3
          (PathCommand.CubicTo ctrl1 ctrl2 pend :: cmds, cur', lc', rest')
      | (none, rest) => ([], cur, lc, rest)

/-- The reflection of the previous control point about the current point
(the `match (last_command, last_control)` of the `'S'`/`'T'` handlers; the
source's two or-patterns on the command letters become a disjunction). -/
def reflectControl (lastCmd : Option Char) (cA cB : Char) (cur : Vec2)
    (lc : Option Vec2) : Vec2 :=
  match lastCmd, lc with
  | some c, some lcv =>
      if c = cA ∨ c = cB then ⟨2 * cur.x - lcv.x, 2 * cur.y - lcv.y⟩ else cur
  | _, _ => cur

/-- The `'S'` handler loop.  The reflected first control point is computed
from `last_command`/`last_control`; note that the source only assigns
`last_command = 'S'` after the whole loop, so `lastCmd` is fixed for all
iterations while `lc` is updated per iteration. -/
def smoothCubicLoop (fuel : ℕ) (is_relative : Bool) (lastCmd : Option Char) (cur : Vec2)
    (lc : Option Vec2) (cs : List Char) : List PathCommand × Vec2 × Option Vec2 × List Char :=
  match fuel with
  | 0 => ([], cur, lc, cs)
  | fuel + 1 =>
      match next_point cs with
      | (some (x2, y2), cs1) =>
          let (p2, cs2) := next_point cs1
          let (x, y) := p2.getD (x2, y2)
          let ctrl1 : Vec2 := reflectControl lastCmd 'C' 'S' cur lc
          let ctrl2 : Vec2 := if is_relative then ⟨cur.x + x2, cur.y + y2⟩ else ⟨x2, y2⟩
          let pend : Vec2 := if is_relative then ⟨cur.x + x, cur.y + y⟩ else ⟨x, y⟩
          let (cmds, cur', lc', rest') :=
            smoothCubicLoop fuel is_relative lastCmd pend (some ctrl2) cs2
          (PathCommand.CubicTo ctrl1 ctrl2 pend :: cmds, cur', lc', rest')
      | (none, rest) => ([], cur, lc, rest)

/-- The `'Q'` handler loop. -/
def quadLoop (fuel : ℕ) (is_relative : Bool) (cur : Vec2) (lc : Option Vec2)
    (cs : List Char) : List PathCommand × Vec2 × Option Vec2 × List Char :=
  match fuel with
  | 0 => ([], cur, lc, cs)
  | fuel + 1 =>
      match next_point cs with
      | (some (x1, y1), cs1) =>
          let (p2, cs2) := next_point cs1
          let (x, y) := p2.getD (x1, y1)
          let control : Vec2 := if is_relative then ⟨cur.x + x1, cur.y + y1⟩ else ⟨x1, y1⟩
          let pend : Vec2 := if is_relative then ⟨cur.x + x, cur.y + y⟩ else ⟨x, y⟩
          let (cmds, cur', lc', rest') := quadLoop fuel is_relative pend (some control) cs2
          (PathCommand.QuadraticTo control pend :: cmds, cur', lc', rest')
      | (none, rest) => ([], cur, lc, rest)

/-- The `'T'` handler loop (`lastCmd` fixed across iterations, as in `'S'`). -/
def smoothQuadLoop (fuel : ℕ) (is_relative : Bool) (lastCmd : Option Char) (cur : Vec2)
    (lc : Option Vec2) (cs : List Char) : List PathCommand × Vec2 × Option Vec2 × List Char :=
  match fuel with
  | 0 => ([], cur, lc, cs)
  | fuel + 1 =>
      match next_point cs with
      | (some (x, y), cs1) =>
          let control : Vec2 := reflectControl lastCmd 'Q' 'T' cur lc
          let pend : Vec2 := if is_relative then ⟨cur.x + x, cur.y + y⟩ else ⟨x, y⟩
          let (cmds, cur', lc', rest') :=
            smoothQuadLoop fuel is_relative lastCmd pend (some control) cs1
          (PathCommand.QuadraticTo control pend :: cmds, cur', lc', rest')
      | (none, rest) => ([], cur, lc, rest)

/-- The `'A'` handler loop. -/
def arcLoop (fuel : ℕ) (is_relative : Bool) (cur : Vec2) (cs : List Char) :
    List PathCommand × Vec2 × List Char :=
  match fuel with
  | 0 => ([], cur, cs)
  | fuel + 1 =>
      match next_arc cs with
      | (some arc, rest) =>
          let pend : Vec2 := if is_relative then ⟨cur.x + arc.x, cur.y + arc.y⟩ else ⟨arc.x, arc.y⟩
          let (cmds, cur', rest') := arcLoop fuel is_relative pend rest
          (PathCommand.ArcTo arc.rx arc.ry arc.x_rotation arc.large_arc arc.sweep pend :: cmds,
            cur', rest')
      | (none, rest) => ([], cur, rest)

/-- Mutable locals of `parse_svg_path`. -/
structure ParseState where
  current_pos : Vec2
  start_pos : Vec2
  last_control : Option Vec2
  last_command : Option Char

/-- The `match cmd_upper` dispatch of the main parse loop: run the matched
command's handler loop (with fuel `cs1.length + 1`, proved sufficient below)
and produce the emitted commands, the updated locals, and the remaining
stream.  Unknown command letters hit the `_ => {}` arm: no commands, no
state change. -/
def runCommand (st : ParseState) (cmd : Char) (cs1 : List Char) :
    List PathCommand × ParseState × List Char :=
  let is_relative := cmd.isLower
  let handlerFuel := cs1.length + 1
  if cmd.toUpper = 'M' then
    let (cmds, cur, start, rest) :=
      moveLoop handlerFuel is_relative true st.current_pos st.start_pos cs1
    (cmds, ⟨cur, start, none, some 'M'⟩, rest)
  else if cmd.toUpper = 'L' then
    let (cmds, cur, rest) := lineLoop handlerFuel is_relative st.current_pos cs1
    (cmds, ⟨cur, st.start_pos, none, some 'L'⟩, rest)
  else if cmd.toUpper = 'H' then
    let (cmds, cur, rest) := hLoop handlerFuel is_relative st.current_pos cs1
    (cmds, ⟨cur, st.start_pos, none, some 'H'⟩, rest)
  else if cmd.toUpper = 'V' then
    let (cmds, cur, rest) := vLoop handlerFuel is_relative st.current_pos cs1
    (cmds, ⟨cur, st.start_pos, none, some 'V'⟩, rest)
  else if cmd.toUpper = 'C' then
    let (cmds, cur, lc, rest) :=
      cubicLoop handlerFuel is_relative st.current_pos st.last_control cs1
    (cmds, ⟨cur, st.start_pos, lc, some 'C'⟩, rest)
  else if cmd.toUpper = 'S' then
    let (cmds, cur, lc, rest) :=
      smoothCubicLoop handlerFuel is_relative st.last_command st.current_pos
        st.last_control cs1
    (cmds, ⟨cur, st.start_pos, lc, some 'S'⟩, rest)
  else if cmd.toUpper = 'Q' then
    let (cmds, cur, lc, rest) :=
      quadLoop handlerFuel is_relative st.current_pos st.last_control cs1
    (cmds, ⟨cur, st.start_pos, lc, some 'Q'⟩, rest)
  else if cmd.toUpper = 'T' then
    let (cmds, cur, lc, rest) :=
      smoothQuadLoop handlerFuel is_relative st.last_command st.current_pos
        st.last_control cs1
    (cmds, ⟨cur, st.start_pos, lc, some 'T'⟩, rest)
  else if cmd.toUpper = 'A' then
    let (cmds, cur, rest) := arcLoop handlerFuel is_relative st.current_pos cs1
    (cmds, ⟨cur, st.start_pos, none, some 'A'⟩, rest)
  else if cmd.toUpper = 'Z' then
    ([PathCommand.Close], ⟨st.start_pos, st.start_pos, none, some 'Z'⟩, cs1)
  else
    ([], st, cs1)

/-- The main `while let Some(cmd) = tokenizer.next_command()` loop. -/
def parseLoop (fuel : ℕ) (st : ParseState) (cs : List Char) : List PathCommand :=
  match fuel with
  | 0 => []
  | fuel + 1 =>
      match next_command cs with
      | (none, _) => []
      | (some cmd, cs1) =>
          let (cmds, st', rest) := runCommand st cmd cs1
          cmds ++ parseLoop fuel st' rest

/-- `parse_svg_path`. -/
def parse_svg_path (d : String) : List PathCommand :=
  parseLoop (d.data.length + 1) ⟨Vec2.ZERO, Vec2.ZERO, none, none⟩ d.data

/-! ## Elliptical arc conversion (`arc_to_beziers`, `tessellation.rs` 17-156)

This function computes with `sin`/`cos`/`acos`/`sqrt`/`tan`, so it is
embedded over `ℝ` (exact-real model of the `f32` computation).  The source's
sequence of local variables is split into one definition per local so the
claim's proof can reason about each step.  Comparisons on reals use the
classical decidability instances. -/

open scoped Classical in
/-- Real-valued 2D point for the arc conversion. -/
structure RVec2 where
  x : ℝ
  y : ℝ

/-- The seven arguments of `arc_to_beziers` (`from` is a reserved token in
Lean and is rendered `fromPt`). -/
structure ArcInput where
  fromPt : RVec2
  rx : ℝ
  ry : ℝ
  x_rotation : ℝ
  large_arc : Bool
  sweep : Bool
  toPt : RVec2

namespace Arc

open Real

/-- `let phi = x_rotation.to_radians()`. -/
noncomputable def phi (a : ArcInput) : ℝ := a.x_rotation * π / 180

/-- `let dx = (from.x - to.x) / 2.0`. -/
noncomputable def dx (a : ArcInput) : ℝ := (a.fromPt.x - a.toPt.x) / 2

/-- `let dy = (from.y - to.y) / 2.0`. -/
noncomputable def dy (a : ArcInput) : ℝ := (a.fromPt.y - a.toPt.y) / 2

/-- `x1_prime`. -/
noncomputable def x1p (a : ArcInput) : ℝ := cos (phi a) * dx a + sin (phi a) * dy a

/-- `y1_prime`. -/
noncomputable def y1p (a : ArcInput) : ℝ := -sin (phi a) * dx a + cos (phi a) * dy a

/-- `rx` after `rx.abs()`. -/
noncomputable def rx1 (a : ArcInput) : ℝ := |a.rx|

/-- `ry` after `ry.abs()`. -/
noncomputable def ry1 (a : ArcInput) : ℝ := |a.ry|

/-- `lambda` (radius sufficiency check). -/
noncomputable def lam (a : ArcInput) : ℝ :=
  x1p a ^ 2 / rx1 a ^ 2 + y1p a ^ 2 / ry1 a ^ 2

/-- `rx` after the scale-up branch (`if lambda > 1.0`). -/
noncomputable def rx2 (a : ArcInput) : ℝ :=
  if 1 < lam a then rx1 a * Real.sqrt (lam a) else rx1 a

/-- `ry` after the scale-up branch. -/
noncomputable def ry2 (a : ArcInput) : ℝ :=
  if 1 < lam a then ry1 a * Real.sqrt (lam a) else ry1 a

/-- `num` (with the re-computed `rx_sq`, `ry_sq`). -/
noncomputable def num (a : ArcInput) : ℝ :=
  rx2 a ^ 2 * ry2 a ^ 2 - rx2 a ^ 2 * y1p a ^ 2 - ry2 a ^ 2 * x1p a ^ 2

/-- `den`. -/
noncomputable def den (a : ArcInput) : ℝ :=
  rx2 a ^ 2 * y1p a ^ 2 + ry2 a ^ 2 * x1p a ^ 2

open scoped Classical in
/-- `let sq = if den == 0.0 { 0.0 } else { (num / den).max(0.0).sqrt() }`. -/
noncomputable def sqRaw (a : ArcInput) : ℝ :=
  if den a = 0 then 0 else Real.sqrt (max (num a / den a) 0)

/-- `let sq = if large_arc == sweep { -sq } else { sq }`. -/
noncomputable def sq (a : ArcInput) : ℝ :=
  if a.large_arc = a.sweep then -sqRaw a else sqRaw a

/-- `cx_prime`. -/
noncomputable def cxp (a : ArcInput) : ℝ := sq a * rx2 a * y1p a / ry2 a

/-- `cy_prime`. -/
noncomputable def cyp (a : ArcInput) : ℝ := -(sq a) * ry2 a * x1p a / rx2 a

/-- `cx`. -/
noncomputable def cx (a : ArcInput) : ℝ :=
  cos (phi a) * cxp a - sin (phi a) * cyp a + (a.fromPt.x + a.toPt.x) / 2

/-- `cy`. -/
noncomputable def cy (a : ArcInput) : ℝ :=
  sin (phi a) * cxp a + cos (phi a) * cyp a + (a.fromPt.y + a.toPt.y) / 2

open scoped Classical in
/-- The nested `fn angle(ux, uy, vx, vy)`: signed angle between two vectors
via `acos` of the clamped normalized dot product. -/
noncomputable def angleF (ux uy vx vy : ℝ) : ℝ :=
  let n := Real.sqrt (ux * ux + uy * uy) * Real.sqrt (vx * vx + vy * vy)
  if n = 0 then 0
  else
    let c := (ux * vx + uy * vy) / n
    let c := max (-1) (min 1 c)
    let ang := Real.arccos c
    if ux * vy - uy * vx < 0 then -ang else ang

/-- First component of `u = ((x1' - cx')/rx, (y1' - cy')/ry)`. -/
noncomputable def ux (a : ArcInput) : ℝ := (x1p a - cxp a) / rx2 a

noncomputable def uy (a : ArcInput) : ℝ := (y1p a - cyp a) / ry2 a

noncomputable def vx (a : ArcInput) : ℝ := (-x1p a - cxp a) / rx2 a

noncomputable def vy (a : ArcInput) : ℝ := (-y1p a - cyp a) / ry2 a

/-- `theta1`. -/
noncomputable def theta1 (a : ArcInput) : ℝ := angleF 1 0 (ux a) (uy a)

/-- `dtheta` before the sweep adjustment. -/
noncomputable def dtheta0 (a : ArcInput) : ℝ := angleF (ux a) (uy a) (vx a) (vy a)

open scoped Classical in
/-- `dtheta` after the sweep adjustment. -/
noncomputable def dtheta (a : ArcInput) : ℝ :=
  if a.sweep = false ∧ 0 < dtheta0 a then dtheta0 a - 2 * π
  else if a.sweep = true ∧ dtheta0 a < 0 then dtheta0 a + 2 * π
  else dtheta0 a

/-- `num_segments = ((dtheta.abs() / (PI/2)).ceil() as usize).max(1)`. -/
noncomputable def num_segments (a : ArcInput) : ℕ :=
  max ⌈|dtheta a| / (π / 2)⌉₊ 1

/-- `segment_angle = dtheta / num_segments as f32`. -/
noncomputable def segment_angle (a : ArcInput) : ℝ := dtheta a / (num_segments a : ℝ)

/-- `let t = (segment_angle / 4.0).tan()`. -/
noncomputable def tanT (a : ArcInput) : ℝ := Real.tan (segment_angle a / 4)

/-- `alpha`. -/
noncomputable def alpha (a : ArcInput) : ℝ :=
  Real.sin (segment_angle a) * (Real.sqrt (4 + 3 * tanT a ^ 2) - 1) / 3

/-- The nested `fn transform_point` (unit circle to the ellipse). -/
noncomputable def transformPoint (a : ArcInput) (px py : ℝ) : RVec2 :=
  ⟨cos (phi a) * (rx2 a * px) - sin (phi a) * (ry2 a * py) + cx a,
   sin (phi a) * (rx2 a * px) + cos (phi a) * (ry2 a * py) + cy a⟩

/-- Loop body for segment `i` (`current_theta = theta1 + i * segment_angle`). -/
noncomputable def segmentCurve (a : ArcInput) (i : ℕ) : RVec2 × RVec2 × RVec2 :=
  let t1 := theta1 a + (i : ℝ) * segment_angle a
  let t2 := t1 + segment_angle a
  let c1x := cos t1 - alpha a * sin t1
  let c1y := sin t1 + alpha a * cos t1
  let c2x := cos t2 + alpha a * sin t2
  let c2y := sin t2 - alpha a * cos t2
  (transformPoint a c1x c1y, transformPoint a c2x c2y, transformPoint a (cos t2) (sin t2))

end Arc

open scoped Classical in
/-- `arc_to_beziers`: degenerate guards (`from == to`, zero radius after
`abs`), then one cubic per segment of the split arc. -/
noncomputable def arc_to_beziers (a : ArcInput) : List (RVec2 × RVec2 × RVec2) :=
  if a.fromPt = a.toPt then []
  else if Arc.rx1 a = 0 ∨ Arc.ry1 a = 0 then []
  else (List.range (Arc.num_segments a)).map (Arc.segmentCurve a)

/-! # Helper lemmas -/

/-- A fresh insert is found by a lookup with the same key. -/
theorem cacheLookup_insert_self (c : MeshCache) (id : ℕ) (m : Mesh) :
    cacheLookup (cacheInsert c id m) id = some m := by
  simp [cacheLookup, cacheInsert, List.find?]

/-- Presence of a key in the cache is existence of an entry with that key. -/
theorem cacheLookup_isSome_iff (c : MeshCache) (id : ℕ) :
    (cacheLookup c id).isSome = true ↔ ∃ e ∈ (c : List (ℕ × Mesh)), e.1 = id := by
  simp [cacheLookup, List.find?_isSome]

/-- Inserting never removes other entries (presence is monotone). -/
theorem cacheLookup_insert_isSome (c : MeshCache) (id id' : ℕ) (m : Mesh)
    (h : (cacheLookup c id').isSome = true) :
    (cacheLookup (cacheInsert c id m) id').isSome = true := by
  rw [cacheLookup_isSome_iff] at h ⊢
  obtain ⟨e, he, he1⟩ := h
  by_cases hid : id' = id
  · exact ⟨(id, m), by simp [cacheInsert], by simpa using hid.symm⟩
  · refine ⟨e, ?_, he1⟩
    simp only [cacheInsert, List.mem_cons, List.mem_filter]
    exact Or.inr ⟨he, by simp [he1, hid]⟩

/-- `get_or_tessellate_shape` leaves an entry for the visited shape's id. -/
theorem get_or_tessellate_shape_isSome (c : MeshCache) (s : Shape) :
    (cacheLookup ((get_or_tessellate_shape c s).2) s.id).isSome = true := by
  unfold get_or_tessellate_shape
  by_cases hb : (s.dirty || (cacheLookup c s.id).isNone) = true
  · simp [hb, cacheLookup_insert_self]
  · simp only [Bool.not_eq_true] at hb
    have h2 : (cacheLookup c s.id).isNone = false :=
      (Bool.or_eq_false_iff.1 hb).2
    simp only [hb, Bool.false_eq_true, if_false]
    simpa [Option.isNone_eq_false_iff] using h2

/-- `get_or_tessellate_shape` keeps every entry that was present. -/
theorem get_or_tessellate_shape_mono (c : MeshCache) (s : Shape) (id : ℕ)
    (h : (cacheLookup c id).isSome = true) :
    (cacheLookup ((get_or_tessellate_shape c s).2) id).isSome = true := by
  unfold get_or_tessellate_shape
  by_cases hb : (s.dirty || (cacheLookup c s.id).isNone) = true
  · simp only [hb, if_true]
    exact cacheLookup_insert_isSome _ _ _ _ h
  · simp only [Bool.not_eq_true] at hb
    simpa [hb] using h

/-- The tessellation pass keeps every entry that was present. -/
theorem frame_fold_mono (shapes : List Shape) (c : MeshCache) (id : ℕ)
    (h : (cacheLookup c id).isSome = true) :
    (cacheLookup (shapes.foldl (fun acc s => (get_or_tessellate_shape acc s).2) c) id).isSome
      = true := by
  induction shapes generalizing c with
  | nil => simpa using h
  | cons hd tl ih =>
      simp only [List.foldl_cons]
      exact ih _ (get_or_tessellate_shape_mono _ _ _ h)

/-- After the tessellation pass, every visited shape has a cache entry. -/
theorem frame_fold_isSome (shapes : List Shape) (c : MeshCache) :
    ∀ s ∈ shapes,
      (cacheLookup (shapes.foldl (fun acc s => (get_or_tessellate_shape acc s).2) c) s.id).isSome
        = true := by
  induction shapes generalizing c with
  | nil => intro s hs; cases hs
  | cons hd tl ih =>
      intro s hs
      rcases List.mem_cons.1 hs with hs | hs
      · subst hs
        simp only [List.foldl_cons]
        exact frame_fold_mono tl _ _ (get_or_tessellate_shape_isSome c s)
      · simp only [List.foldl_cons]
        exact ih _ s hs

/-! # Claim theorems -/

/-- `hasId` is the existence of a matching element. -/
theorem hasId_iff_exists (l : List Shape) (id : ℕ) :
    SceneGraph.hasId l id = true ↔ ∃ s ∈ l, s.id = id := by
  simp [SceneGraph.hasId]

/-- `hasId` is `find?` success. -/
theorem hasId_iff_find?_isSome (l : List Shape) (id : ℕ) :
    SceneGraph.hasId l id = true ↔ (l.find? (fun s => s.id = id)).isSome = true := by
  rw [hasId_iff_exists, List.find?_isSome]
  simp

/-- Rewriting the first matching shape with an id-preserving, dirty-setting
update makes the first matching shape of the result dirty. -/
theorem find?_modifyFirstById_dirty (f : Shape → Shape)
    (hid : ∀ s, (f s).id = s.id) (hd : ∀ s, (f s).dirty = true) :
    ∀ (l : List Shape) (id : ℕ), SceneGraph.hasId l id = true →
      ((SceneGraph.modifyFirstById f l id).find? (fun s => s.id = id)).map Shape.dirty
        = some true := by
  intro l
  induction l with
  | nil => intro id h; simp [SceneGraph.hasId] at h
  | cons s rest ih =>
      intro id h
      by_cases hs : s.id = id
      · simp only [SceneGraph.modifyFirstById, if_pos hs]
        rw [List.find?_cons_of_pos _ (by simp [hid, hs])]
        simp [hd]
      · simp only [SceneGraph.modifyFirstById, if_neg hs]
        rw [List.find?_cons_of_neg _ (by simp [hs])]
        refine ih id ?_
        rw [hasId_iff_exists] at h ⊢
        rcases h with ⟨s', hs', hid'⟩
        rcases List.mem_cons.1 hs' with rfl | hmem
        · exact absurd hid' hs
        · exact ⟨s', hmem, hid'⟩

/-- C9: for meshes `a`, `b` whose indices are all below the owning mesh's
vertex count, after `a.extend(&b)` every index of the combined mesh is below
the combined vertex count, and the vertex count is the sum of the two vertex
counts.  (`extend` borrows `b` immutably, so `b` is unchanged by
construction.) -/
theorem mesh_extend_rebases_indices (a b : Mesh)
    (ha : ∀ i ∈ a.indices, i < a.vertices.length)
    (hb : ∀ i ∈ b.indices, i < b.vertices.length) :
    (∀ i ∈ (a.extend b).indices, i < (a.extend b).vertices.length) ∧
      (a.extend b).vertices.length = a.vertices.length + b.vertices.length := by
  constructor
  · intro i hi
    simp only [Mesh.extend, List.mem_append, List.mem_map] at hi
    simp only [Mesh.extend, List.length_append]
    rcases hi with hi | ⟨j, hj, rfl⟩
    · exact lt_of_lt_of_le (ha i hi) (Nat.le_add_right _ _)
    · have := hb j hj
      omega
  · simp [Mesh.extend]

/-- C9 witness: `mesh_extend_rebases_indices` applied to two concrete
meshes (a two-triangle mesh extended by a one-triangle mesh). -/
theorem mesh_extend_rebases_indices_witness :
    (∀ i ∈ (Mesh.mk [⟨⟨0, 0⟩, Color.black⟩, ⟨⟨1, 0⟩, Color.black⟩, ⟨⟨0, 1⟩, Color.black⟩,
        ⟨⟨1, 1⟩, Color.black⟩] [0, 1, 2, 1, 3, 2]).indices,
        i < (Mesh.mk [⟨⟨0, 0⟩, Color.black⟩, ⟨⟨1, 0⟩, Color.black⟩, ⟨⟨0, 1⟩, Color.black⟩,
        ⟨⟨1, 1⟩, Color.black⟩] [0, 1, 2, 1, 3, 2]).vertices.length) ∧
    (∀ i ∈ (Mesh.mk [⟨⟨2, 2⟩, Color.white⟩, ⟨⟨3, 2⟩, Color.white⟩, ⟨⟨2, 3⟩, Color.white⟩]
        [0, 1, 2]).indices,
        i < (Mesh.mk [⟨⟨2, 2⟩, Color.white⟩, ⟨⟨3, 2⟩, Color.white⟩, ⟨⟨2, 3⟩, Color.white⟩]
        [0, 1, 2]).vertices.length) ∧
    ((∀ i ∈ ((Mesh.mk [⟨⟨0, 0⟩, Color.black⟩, ⟨⟨1, 0⟩, Color.black⟩, ⟨⟨0, 1⟩, Color.black⟩,
        ⟨⟨1, 1⟩, Color.black⟩] [0, 1, 2, 1, 3, 2]).extend
        (Mesh.mk [⟨⟨2, 2⟩, Color.white⟩, ⟨⟨3, 2⟩, Color.white⟩, ⟨⟨2, 3⟩, Color.white⟩]
        [0, 1, 2])).indices,
        i < ((Mesh.mk [⟨⟨0, 0⟩, Color.black⟩, ⟨⟨1, 0⟩, Color.black⟩, ⟨⟨0, 1⟩, Color.black⟩,
        ⟨⟨1, 1⟩, Color.black⟩] [0, 1, 2, 1, 3, 2]).extend
        (Mesh.mk [⟨⟨2, 2⟩, Color.white⟩, ⟨⟨3, 2⟩, Color.white⟩, ⟨⟨2, 3⟩, Color.white⟩]
        [0, 1, 2])).vertices.length) ∧
      ((Mesh.mk [⟨⟨0, 0⟩, Color.black⟩, ⟨⟨1, 0⟩, Color.black⟩, ⟨⟨0, 1⟩, Color.black⟩,
        ⟨⟨1, 1⟩, Color.black⟩] [0, 1, 2, 1, 3, 2]).extend
        (Mesh.mk [⟨⟨2, 2⟩, Color.white⟩, ⟨⟨3, 2⟩, Color.white⟩, ⟨⟨2, 3⟩, Color.white⟩]
        [0, 1, 2])).vertices.length =
        (Mesh.mk [⟨⟨0, 0⟩, Color.black⟩, ⟨⟨1, 0⟩, Color.black⟩, ⟨⟨0, 1⟩, Color.black⟩,
        ⟨⟨1, 1⟩, Color.black⟩] [0, 1, 2, 1, 3, 2]).vertices.length +
        (Mesh.mk [⟨⟨2, 2⟩, Color.white⟩, ⟨⟨3, 2⟩, Color.white⟩, ⟨⟨2, 3⟩, Color.white⟩]
        [0, 1, 2]).vertices.length) :=
  ⟨by decide, by decide, mesh_extend_rebases_indices _ _ (by decide) (by decide)⟩

/-- C5: `Renderer::render` rejects a mesh with more than `MAX_VERTICES`
vertices or more than `MAX_INDICES` indices with the corresponding
descriptive error (returning before anything is uploaded or drawn), and the
capacity checks pass any mesh within both limits (the draw of all
`mesh.indices.len()` indices is issued). -/
theorem render_capacity_checks (m : Mesh) :
    (MAX_VERTICES < m.vertices.length →
      Renderer.render m = Except.error ("Too many vertices: " ++
        toString m.vertices.length ++ " (max " ++ toString MAX_VERTICES ++ ")")) ∧
    (m.vertices.length ≤ MAX_VERTICES → MAX_INDICES < m.indices.length →
      Renderer.render m = Except.error ("Too many indices: " ++
        toString m.indices.length ++ " (max " ++ toString MAX_INDICES ++ ")")) ∧
    (m.vertices.length ≤ MAX_VERTICES → m.indices.length ≤ MAX_INDICES →
      Renderer.render m = Except.ok m.indices.length) := by
  refine ⟨fun h1 => ?_, fun h1 h2 => ?_, fun h1 h2 => ?_⟩
  · simp [Renderer.render, h1]
  · simp [Renderer.render, Nat.not_lt.2 h1, h2]
  · simp [Renderer.render, Nat.not_lt.2 h1, Nat.not_lt.2 h2]

/-- C5 witness: a 65537-vertex mesh is rejected with the vertex-overflow
message, via `render_capacity_checks`. -/
theorem render_capacity_checks_witness :
    MAX_VERTICES < (Mesh.mk (List.replicate 65537 ⟨⟨0, 0⟩, Color.black⟩) []).vertices.length ∧
    Renderer.render (Mesh.mk (List.replicate 65537 ⟨⟨0, 0⟩, Color.black⟩) []) =
      Except.error ("Too many vertices: " ++
        toString (Mesh.mk (List.replicate 65537 ⟨⟨0, 0⟩, Color.black⟩) []).vertices.length ++
        " (max " ++ toString MAX_VERTICES ++ ")") :=
  ⟨by simp only [List.length_replicate, MAX_VERTICES]; norm_num,
   (render_capacity_checks _).1
     (by simp only [List.length_replicate, MAX_VERTICES]; norm_num)⟩

/-- C3: `get_or_tessellate_shape` on a clean (`dirty = false`) shape whose id
is cached returns the cached mesh with the cache unchanged (a pure cache
hit); otherwise it tessellates the geometry at the identity transform and
stores the result keyed by `shape.id`; and the mesh produced at origin is
independent of the shape's `transform` field. -/
theorem get_or_tessellate_shape_spec (c : MeshCache) (s : Shape) :
    (∀ m, s.dirty = false → cacheLookup c s.id = some m →
      get_or_tessellate_shape c s = (m, c)) ∧
    (s.dirty = true ∨ cacheLookup c s.id = none →
      get_or_tessellate_shape c s =
        (tessellate_shape_at_origin s,
          cacheInsert c s.id (tessellate_shape_at_origin s))) ∧
    (∀ t : Transform2D,
      tessellate_shape_at_origin { s with transform := t } = tessellate_shape_at_origin s) := by
  refine ⟨fun m hd hm => ?_, fun h => ?_, fun t => rfl⟩
  · simp [get_or_tessellate_shape, hd, hm]
  · have hcond : (s.dirty || (cacheLookup c s.id).isNone) = true := by
      rcases h with h | h <;> simp [h]
    simp [get_or_tessellate_shape, hcond, cacheLookup_insert_self]

/-- C3 witness: `get_or_tessellate_shape_spec` at a concrete clean shape with
a cached mesh: the hit returns the cached mesh and leaves the cache alone. -/
theorem get_or_tessellate_shape_spec_witness :
    (Shape.mk 1 (ShapeGeometry.rectangle 10 5) Transform2D.identity
        (ShapeStyle.fill_only Color.black) false).dirty = false ∧
    cacheLookup [(1, Mesh.mk [⟨⟨7, 7⟩, Color.white⟩] [])] 1 =
      some (Mesh.mk [⟨⟨7, 7⟩, Color.white⟩] []) ∧
    get_or_tessellate_shape [(1, Mesh.mk [⟨⟨7, 7⟩, Color.white⟩] [])]
        (Shape.mk 1 (ShapeGeometry.rectangle 10 5) Transform2D.identity
          (ShapeStyle.fill_only Color.black) false) =
      (Mesh.mk [⟨⟨7, 7⟩, Color.white⟩] [], [(1, Mesh.mk [⟨⟨7, 7⟩, Color.white⟩] [])]) :=
  ⟨rfl, by decide,
   (get_or_tessellate_shape_spec _ _).1 _ rfl (by decide)⟩

/-- C4 counterexample: a frame tessellation pass over a scene graph holding
one dirty shape produces and caches a mesh for it, yet the shape's dirty
flag is still `true` afterwards — `get_or_tessellate_shape` takes the shape
by shared reference and never clears `dirty` (nothing on the render path
does), contradicting the claim that the flag is `false` after a mesh is
produced. -/
theorem frame_tessellation_leaves_dirty :
    ((SceneGraph.new.add_shape (Shape.with_id 1 (ShapeGeometry.rectangle 10 5)
        (ShapeStyle.fill_only Color.black))).shapes.map Shape.dirty = [true]) ∧
    (cacheLookup (frame_tessellation (SceneGraph.new.add_shape (Shape.with_id 1
        (ShapeGeometry.rectangle 10 5) (ShapeStyle.fill_only Color.black))) []).2 1).isSome
      = true ∧
    ((frame_tessellation (SceneGraph.new.add_shape (Shape.with_id 1
        (ShapeGeometry.rectangle 10 5) (ShapeStyle.fill_only Color.black))) []).1.get_shape 1).map
        Shape.dirty = some true := by
  refine ⟨by decide, ?_, by decide⟩
  decide

/-- C4 (amended): producing meshes for the scene's shapes leaves the scene
graph — in particular every shape's `dirty` flag — unchanged, while giving
every shape a cache entry; the dirty flags are cleared only by
`SceneGraph::clear_dirty`. -/
theorem frame_tessellation_frame (g : SceneGraph) (c : MeshCache) :
    (frame_tessellation g c).1 = g ∧
    (∀ s ∈ g.shapes, (cacheLookup (frame_tessellation g c).2 s.id).isSome = true) ∧
    (∀ s ∈ g.clear_dirty.shapes, s.dirty = false) := by
  refine ⟨rfl, frame_fold_isSome g.shapes c, fun s hs => ?_⟩
  simp only [SceneGraph.clear_dirty, List.mem_map] at hs
  obtain ⟨s', _, rfl⟩ := hs
  rfl

/-- C4 (amended) witness: `frame_tessellation_frame` at the one-dirty-shape
scene graph of the counterexample. -/
theorem frame_tessellation_frame_witness :
    (frame_tessellation (SceneGraph.new.add_shape (Shape.with_id 1
        (ShapeGeometry.rectangle 10 5) (ShapeStyle.fill_only Color.black))) []).1 =
      SceneGraph.new.add_shape (Shape.with_id 1 (ShapeGeometry.rectangle 10 5)
        (ShapeStyle.fill_only Color.black)) ∧
    (∀ s ∈ (SceneGraph.new.add_shape (Shape.with_id 1 (ShapeGeometry.rectangle 10 5)
        (ShapeStyle.fill_only Color.black))).shapes,
      (cacheLookup (frame_tessellation (SceneGraph.new.add_shape (Shape.with_id 1
        (ShapeGeometry.rectangle 10 5) (ShapeStyle.fill_only Color.black))) []).2 s.id).isSome
        = true) ∧
    (∀ s ∈ (SceneGraph.new.add_shape (Shape.with_id 1 (ShapeGeometry.rectangle 10 5)
        (ShapeStyle.fill_only Color.black))).clear_dirty.shapes, s.dirty = false) :=
  frame_tessellation_frame _ _

/-- Hex digits decode back to their value. -/
theorem hexDigitVal_hexDigitChar : ∀ d < 16, hexDigitVal (hexDigitChar d) = some d := by
  decide

/-- Hex digits are never `#`. -/
theorem hexDigitChar_ne_hash : ∀ d < 16, ¬hexDigitChar d = '#' := by
  decide

/-- A two-digit hex byte parses back to itself. -/
theorem parseHexByte_byteToHexChars (n : ℕ) (h : n < 256) :
    parseHexByte (hexDigitChar (n / 16)) (hexDigitChar (n % 16)) = some n := by
  have h1 : n / 16 < 16 := by omega
  have h2 : n % 16 < 16 := Nat.mod_lt _ (by norm_num)
  rw [parseHexByte, hexDigitVal_hexDigitChar _ h1, hexDigitVal_hexDigitChar _ h2]
  exact congrArg some (by omega)

/-- For a component in `[0,1]`, the saturating cast does not clamp:
the quantized byte is exactly `⌊255·x + 1/2⌋`, and it is at most 255. -/
theorem quantByte_eq (x : ℚ) (h0 : 0 ≤ x) (h1 : x ≤ 1) :
    (quantByte x : ℤ) = ⌊x * 255 + 1 / 2⌋ ∧ quantByte x ≤ 255 := by
  have hlo : (0 : ℤ) ≤ ⌊x * 255 + 1 / 2⌋ := by
    refine Int.le_floor.2 ?_
    push_cast
    nlinarith
  have hhi : ⌊x * 255 + 1 / 2⌋ ≤ 255 := by
    by_contra hc
    push_neg at hc
    have hcq : (256 : ℚ) ≤ ((⌊x * 255 + 1 / 2⌋ : ℤ) : ℚ) := by exact_mod_cast hc
    have := Int.floor_le (x * 255 + 1 / 2)
    nlinarith
  have hmain : (quantByte x : ℤ) = ⌊x * 255 + 1 / 2⌋ := by
    simp only [quantByte, castU8, rustRound]
    rw [min_eq_right hhi, max_eq_right hlo]
    exact Int.toNat_of_nonneg hlo
  refine ⟨hmain, ?_⟩
  have : (quantByte x : ℤ) ≤ 255 := hmain ▸ hhi
  exact_mod_cast this

/-- Quantization error of one component is at most `1/510`. -/
theorem quantByte_close (x : ℚ) (h0 : 0 ≤ x) (h1 : x ≤ 1) :
    |(quantByte x : ℚ) / 255 - x| ≤ 1 / 510 := by
  have hq : ((quantByte x : ℕ) : ℚ) = ((⌊x * 255 + 1 / 2⌋ : ℤ) : ℚ) := by
    exact_mod_cast congrArg (fun i : ℤ => (i : ℚ)) (quantByte_eq x h0 h1).1
  have hle : ((⌊x * 255 + 1 / 2⌋ : ℤ) : ℚ) ≤ x * 255 + 1 / 2 := Int.floor_le _
  have hgt : x * 255 + 1 / 2 < ((⌊x * 255 + 1 / 2⌋ : ℤ) : ℚ) + 1 := Int.lt_floor_add_one _
  rw [abs_le]
  constructor <;> rw [hq] <;> nlinarith

/-- `from_hex` on `#` followed by six non-`#` characters reduces to parsing
the three hex bytes. -/
theorem from_hex_hash_six (c1 c2 c3 c4 c5 c6 : Char) (h : ¬c1 = '#') :
    Color.from_hex ['#', c1, c2, c3, c4, c5, c6] =
      match parseHexByte c1 c2, parseHexByte c3 c4, parseHexByte c5 c6 with
      | some r, some g, some b =>
          some (Color.rgb ((r : ℚ) / 255) ((g : ℚ) / 255) ((b : ℚ) / 255))
      | _, _, _ => none := by
  unfold Color.from_hex
  rw [show List.dropWhile (fun c => decide (c = '#')) ['#', c1, c2, c3, c4, c5, c6]
      = [c1, c2, c3, c4, c5, c6] by
    rw [List.dropWhile_cons_of_pos (by simp), List.dropWhile_cons_of_neg (by simpa using h)]]

/-- C8: the hex round trip: for a `Color::rgb` color with components in
`[0,1]`, `from_hex(to_hex(c))` is `Some` of the color whose components are
the 8-bit quantizations `round(255·x)/255`, each within `1/510` of the
original component (the float-rounding slack of the claim). -/
theorem color_hex_roundtrip (r g b : ℚ)
    (hr0 : 0 ≤ r) (hr1 : r ≤ 1) (hg0 : 0 ≤ g) (hg1 : g ≤ 1) (hb0 : 0 ≤ b) (hb1 : b ≤ 1) :
    Color.from_hex (Color.to_hex (Color.rgb r g b)) =
      some (Color.rgb ((quantByte r : ℚ) / 255) ((quantByte g : ℚ) / 255)
        ((quantByte b : ℚ) / 255)) ∧
    |(quantByte r : ℚ) / 255 - r| ≤ 1 / 510 ∧
    |(quantByte g : ℚ) / 255 - g| ≤ 1 / 510 ∧
    |(quantByte b : ℚ) / 255 - b| ≤ 1 / 510 := by
  refine ⟨?_, quantByte_close r hr0 hr1, quantByte_close g hg0 hg1, quantByte_close b hb0 hb1⟩
  have hr : quantByte r ≤ 255 := (quantByte_eq r hr0 hr1).2
  have hg : quantByte g ≤ 255 := (quantByte_eq g hg0 hg1).2
  have hb : quantByte b ≤ 255 := (quantByte_eq b hb0 hb1).2
  have hne : ¬(hexDigitChar (quantByte r / 16) = '#') := hexDigitChar_ne_hash _ (by omega)
  have hlist : Color.to_hex (Color.rgb r g b) =
      ['#', hexDigitChar (quantByte r / 16), hexDigitChar (quantByte r % 16),
        hexDigitChar (quantByte g / 16), hexDigitChar (quantByte g % 16),
        hexDigitChar (quantByte b / 16), hexDigitChar (quantByte b % 16)] := by
    simp [Color.to_hex, byteToHexChars, Color.rgb]
  rw [hlist, from_hex_hash_six _ _ _ _ _ _ hne,
    parseHexByte_byteToHexChars _ (by omega), parseHexByte_byteToHexChars _ (by omega),
    parseHexByte_byteToHexChars _ (by omega)]

/-- C8 witness: `color_hex_roundtrip` at `rgb(1/2, 1/5, 1)`. -/
theorem color_hex_roundtrip_witness :
    Color.from_hex (Color.to_hex (Color.rgb (1 / 2) (1 / 5) 1)) =
      some (Color.rgb ((quantByte (1 / 2) : ℚ) / 255) ((quantByte (1 / 5) : ℚ) / 255)
        ((quantByte 1 : ℚ) / 255)) ∧
    |(quantByte (1 / 2 : ℚ) : ℚ) / 255 - 1 / 2| ≤ 1 / 510 :=
  ⟨(color_hex_roundtrip (1 / 2) (1 / 5) 1 (by norm_num) (by norm_num) (by norm_num)
      (by norm_num) (by norm_num) (by norm_num)).1,
   (color_hex_roundtrip (1 / 2) (1 / 5) 1 (by norm_num) (by norm_num) (by norm_num)
      (by norm_num) (by norm_num) (by norm_num)).2.1⟩

/-- `hasId` only depends on the multiset of shapes. -/
theorem hasId_congr_perm {l l' : List Shape} (h : l.Perm l') (id : ℕ) :
    SceneGraph.hasId l id = SceneGraph.hasId l' id := by
  cases hb : SceneGraph.hasId l' id
  · cases hb2 : SceneGraph.hasId l id
    · rfl
    · obtain ⟨s, hs, hsid⟩ := (hasId_iff_exists _ _).1 hb2
      have : SceneGraph.hasId l' id = true :=
        (hasId_iff_exists _ _).2 ⟨s, h.mem_iff.1 hs, hsid⟩
      rw [this] at hb
      exact hb
  · exact (hasId_iff_exists _ _).2 (by
      obtain ⟨s, hs, hsid⟩ := (hasId_iff_exists _ _).1 hb
      exact ⟨s, h.mem_iff.2 hs, hsid⟩)

/-- Removing the first match and re-appending it is a permutation
(`bring_to_front`'s list operation). -/
theorem removeFirst_append_perm (l : List Shape) (id : ℕ) (s : Shape)
    (h : l.find? (fun x => x.id = id) = some s) :
    (SceneGraph.removeFirstById l id ++ [s]).Perm l := by
  induction l with
  | nil => simp at h
  | cons a rest ih =>
      by_cases ha : a.id = id
      · rw [List.find?_cons_of_pos _ (by simpa using ha)] at h
        cases h
        simpa [SceneGraph.removeFirstById, ha] using List.perm_append_singleton a rest
      · rw [List.find?_cons_of_neg _ (by simpa using ha)] at h
        simpa [SceneGraph.removeFirstById, ha] using (ih h).cons a

/-- `send_to_back`'s list operation is a permutation. -/
theorem cons_removeFirst_perm (l : List Shape) (id : ℕ) (s : Shape)
    (h : l.find? (fun x => x.id = id) = some s) :
    (s :: SceneGraph.removeFirstById l id).Perm l := by
  exact ((List.perm_append_singleton s (SceneGraph.removeFirstById l id)).symm).trans
    (removeFirst_append_perm l id s h)

/-- `swapForward` permutes the list. -/
theorem swapForward_perm (l : List Shape) (id : ℕ) :
    (SceneGraph.swapForward l id).1.Perm l := by
  induction l with
  | nil => simp [SceneGraph.swapForward]
  | cons a rest ih =>
      cases rest with
      | nil => simp [SceneGraph.swapForward]
      | cons b rest' =>
          by_cases ha : a.id = id
          · simp only [SceneGraph.swapForward, if_pos ha]
            exact List.Perm.swap a b rest'
          · simp only [SceneGraph.swapForward, if_neg ha]
            cases hsw : SceneGraph.swapForward (b :: rest') id with
            | mk l' moved =>
                have := ih
                rw [hsw] at this
                exact this.cons a

/-- `swapBackward` permutes the list. -/
theorem swapBackward_perm (l : List Shape) (id : ℕ) :
    (SceneGraph.swapBackward l id).1.Perm l := by
  induction l with
  | nil => simp [SceneGraph.swapBackward]
  | cons a rest ih =>
      cases rest with
      | nil => simp [SceneGraph.swapBackward]
      | cons b rest' =>
          by_cases ha : a.id = id
          · simp [SceneGraph.swapBackward, if_pos ha]
          · by_cases hb : b.id = id
            · simp only [SceneGraph.swapBackward, if_neg ha, if_pos hb]
              exact List.Perm.swap a b rest'
            · simp only [SceneGraph.swapBackward, if_neg ha, if_neg hb]
              cases hsw : SceneGraph.swapBackward (b :: rest') id with
              | mk l' moved =>
                  have := ih
                  rw [hsw] at this
                  exact this.cons a

/-- Rewriting the first match with an id-preserving update does not change
which ids are present. -/
theorem hasId_modifyFirstById (f : Shape → Shape) (hf : ∀ s, (f s).id = s.id) :
    ∀ (l : List Shape) (id0 id : ℕ),
      SceneGraph.hasId (SceneGraph.modifyFirstById f l id0) id = SceneGraph.hasId l id := by
  intro l
  induction l with
  | nil => intro id0 id; rfl
  | cons a rest ih =>
      intro id0 id
      by_cases ha : a.id = id0
      · simp [SceneGraph.modifyFirstById, ha, SceneGraph.hasId, hf]
      · simp only [SceneGraph.modifyFirstById, if_neg ha, SceneGraph.hasId, List.any_cons]
        have := ih id0 id
        simp only [SceneGraph.hasId] at this
        rw [this]

/-- Mapping an id-preserving function does not change which ids are present. -/
theorem hasId_map (f : Shape → Shape) (hf : ∀ s, (f s).id = s.id) (l : List Shape) (id : ℕ) :
    SceneGraph.hasId (l.map f) id = SceneGraph.hasId l id := by
  simp only [SceneGraph.hasId, List.any_map]
  congr 1
  funext s
  simp [Function.comp, hf]

/-- Presence of other ids survives removal of the first match with a
different id. -/
theorem hasId_removeFirstById_of_ne (l : List Shape) (id id' : ℕ) (hne : ¬id' = id)
    (h : SceneGraph.hasId l id' = true) :
    SceneGraph.hasId (SceneGraph.removeFirstById l id) id' = true := by
  induction l with
  | nil => simp [SceneGraph.hasId] at h
  | cons a rest ih =>
      rw [hasId_iff_exists] at h
      obtain ⟨s, hs, hsid⟩ := h
      by_cases ha : a.id = id
      · simp only [SceneGraph.removeFirstById, if_pos ha]
        rcases List.mem_cons.1 hs with rfl | hmem
        · exact absurd (hsid ▸ ha) hne
        · exact (hasId_iff_exists _ _).2 ⟨s, hmem, hsid⟩
      · simp only [SceneGraph.removeFirstById, if_neg ha]
        rcases List.mem_cons.1 hs with rfl | hmem
        · rw [hasId_iff_exists]
          exact ⟨s, List.mem_cons_self _ _, hsid⟩
        · rw [hasId_iff_exists]
          have := ih ((hasId_iff_exists _ _).2 ⟨s, hmem, hsid⟩)
          obtain ⟨s', hmem', hsid'⟩ := (hasId_iff_exists _ _).1 this
          exact ⟨s', List.mem_cons_of_mem _ hmem', hsid'⟩

/-- `remove_shape` preserves the selection invariant. -/
theorem remove_shape_inv (g : SceneGraph) (id : ℕ) (h : g.selectionInvariant) :
    (g.remove_shape id).selectionInvariant := by
  unfold SceneGraph.remove_shape
  split
  · constructor
    · exact h.1.filter _
    · intro id' hid'
      simp only [List.mem_filter, decide_eq_true_eq] at hid'
      exact hasId_removeFirstById_of_ne _ _ _ hid'.2 (h.2 id' hid'.1)
  · exact h

/-- `select` preserves the selection invariant. -/
theorem select_inv (g : SceneGraph) (id : ℕ) (h : g.selectionInvariant) :
    (g.select id).selectionInvariant := by
  unfold SceneGraph.select
  split
  · next hc =>
      constructor
      · rw [List.nodup_append]
        refine ⟨h.1, List.nodup_singleton _, ?_⟩
        intro a ha hb
        simp only [List.mem_singleton] at hb
        subst hb
        have hnot : a ∉ g.selection := by simpa using hc.2
        exact hnot ha
      · intro id' hid'
        rcases List.mem_append.1 hid' with hmem | hmem
        · exact h.2 id' hmem
        · simp only [List.mem_singleton] at hmem
          subst hmem
          rw [hasId_iff_find?_isSome]
          simpa [SceneGraph.get_shape] using hc.1
  · exact h

/-- The fold inside `transform_selection` keeps the selection and the id set
of the shape list. -/
theorem transform_fold_frame (delta_position delta_scale : Vec2) (ids : List ℕ) :
    ∀ g : SceneGraph,
      ((ids.foldl (fun acc id =>
        if SceneGraph.hasId acc.shapes id = true then
          { acc with
              shapes := SceneGraph.modifyFirstById (fun s =>
                { s with
                    transform :=
                      { s.transform with
                          position := s.transform.position.add delta_position
                          scale := s.transform.scale.mul delta_scale }
                    dirty := true }) acc.shapes id
              dirty_shapes := SceneGraph.setInsert acc.dirty_shapes id }
        else acc) g).selection = g.selection) ∧
      (∀ id, SceneGraph.hasId ((ids.foldl (fun acc id =>
        if SceneGraph.hasId acc.shapes id = true then
          { acc with
              shapes := SceneGraph.modifyFirstById (fun s =>
                { s with
                    transform :=
                      { s.transform with
                          position := s.transform.position.add delta_position
                          scale := s.transform.scale.mul delta_scale }
                    dirty := true }) acc.shapes id
              dirty_shapes := SceneGraph.setInsert acc.dirty_shapes id }
        else acc) g).shapes) id = SceneGraph.hasId g.shapes id) := by
  induction ids with
  | nil => intro g; exact ⟨rfl, fun _ => rfl⟩
  | cons hd tl ih =>
      intro g
      simp only [List.foldl_cons]
      constructor
      · rw [(ih _).1]
        split <;> rfl
      · intro id
        rw [(ih _).2 id]
        split
        · exact hasId_modifyFirstById (fun s =>
            { s with
                transform :=
                  { s.transform with
                      position := s.transform.position.add delta_position
                      scale := s.transform.scale.mul delta_scale }
                dirty := true }) (fun _ => rfl) _ _ _
        · rfl

/-- `select_multiple` preserves the selection invariant. -/
theorem select_multiple_inv (ids : List ℕ) :
    ∀ g : SceneGraph, g.selectionInvariant → (ids.foldl SceneGraph.select g).selectionInvariant := by
  induction ids with
  | nil => intro g h; exact h
  | cons hd tl ih => intro g h; exact ih _ (select_inv g hd h)

/-- Folding `remove_shape` preserves the selection invariant. -/
theorem remove_fold_inv (ids : List ℕ) :
    ∀ g : SceneGraph, g.selectionInvariant →
      (ids.foldl SceneGraph.remove_shape g).selectionInvariant := by
  induction ids with
  | nil => intro g h; exact h
  | cons hd tl ih => intro g h; exact ih _ (remove_shape_inv g hd h)

/-- Transport of the invariant along equal selection and shape-id sets. -/
theorem inv_of_frame (g g' : SceneGraph) (hsel : g'.selection = g.selection)
    (hhas : ∀ id, SceneGraph.hasId g'.shapes id = SceneGraph.hasId g.shapes id)
    (h : g.selectionInvariant) : g'.selectionInvariant := by
  refine ⟨hsel ▸ h.1, fun id hid => ?_⟩
  rw [hhas id]
  exact h.2 id (hsel ▸ hid)

/-- Every public operation preserves the selection invariant. -/
theorem applyOp_inv (g : SceneGraph) (op : SceneOp) (h : g.selectionInvariant) :
    (g.applyOp op).selectionInvariant := by
  cases op with
  | addShape s =>
      refine ⟨h.1, fun id hid => ?_⟩
      have := h.2 id hid
      rw [hasId_iff_exists] at this ⊢
      obtain ⟨s', hmem, hsid⟩ := this
      exact ⟨s', List.mem_append.2 (Or.inl hmem), hsid⟩
  | removeShape id => exact remove_shape_inv g id h
  | getShapeMut id =>
      show (g.get_shape_mut id).selectionInvariant
      unfold SceneGraph.get_shape_mut
      split <;> exact h
  | setTransform id t =>
      show (g.set_transform id t).selectionInvariant
      unfold SceneGraph.set_transform
      split
      · refine ⟨h.1, fun id' hid' => ?_⟩
        show SceneGraph.hasId (SceneGraph.modifyFirstById
          (fun s => { s with transform := t, dirty := true }) g.shapes id) id' = true
        rw [hasId_modifyFirstById (fun s => { s with transform := t, dirty := true }) (fun _ => rfl)]
        exact h.2 id' hid'
      · exact h
  | setStyle id style =>
      show (g.set_style id style).selectionInvariant
      unfold SceneGraph.set_style
      split
      · refine ⟨h.1, fun id' hid' => ?_⟩
        show SceneGraph.hasId (SceneGraph.modifyFirstById
          (fun s => { s with style := style, dirty := true }) g.shapes id) id' = true
        rw [hasId_modifyFirstById (fun s => { s with style := style, dirty := true }) (fun _ => rfl)]
        exact h.2 id' hid'
      · exact h
  | setGeometry id geo =>
      show (g.set_geometry id geo).selectionInvariant
      unfold SceneGraph.set_geometry
      split
      · refine ⟨h.1, fun id' hid' => ?_⟩
        show SceneGraph.hasId (SceneGraph.modifyFirstById
          (fun s => { s with geometry := geo, dirty := true }) g.shapes id) id' = true
        rw [hasId_modifyFirstById (fun s => { s with geometry := geo, dirty := true }) (fun _ => rfl)]
        exact h.2 id' hid'
      · exact h
  | clearDirty =>
      refine ⟨h.1, fun id hid => ?_⟩
      show SceneGraph.hasId (g.shapes.map (fun s => { s with dirty := false })) id = true
      rw [hasId_map (fun s => { s with dirty := false }) (fun _ => rfl)]
      exact h.2 id hid
  | markDirty =>
      refine ⟨h.1, fun id hid => ?_⟩
      show SceneGraph.hasId (g.shapes.map (fun s => { s with dirty := true })) id = true
      rw [hasId_map (fun s => { s with dirty := true }) (fun _ => rfl)]
      exact h.2 id hid
  | doSelect id => exact select_inv g id h
  | selectMultiple ids =>
      exact select_multiple_inv ids g h
  | doDeselect id =>
      show (g.deselect id).selectionInvariant
      refine ⟨h.1.filter _, fun id' hid' => ?_⟩
      simp only [SceneGraph.deselect, List.mem_filter, decide_eq_true_eq] at hid'
      exact h.2 id' hid'.1
  | clearSelection => exact ⟨List.nodup_nil, fun id hid => by cases hid⟩
  | bringToFront id =>
      show (g.bring_to_front id).selectionInvariant
      unfold SceneGraph.bring_to_front
      cases hf : g.get_shape id with
      | none => exact h
      | some s =>
          refine ⟨h.1, fun id' hid' => ?_⟩
          rw [hasId_congr_perm (removeFirst_append_perm g.shapes id s
            (by simpa [SceneGraph.get_shape] using hf))]
          exact h.2 id' hid'
  | sendToBack id =>
      show (g.send_to_back id).selectionInvariant
      unfold SceneGraph.send_to_back
      cases hf : g.get_shape id with
      | none => exact h
      | some s =>
          refine ⟨h.1, fun id' hid' => ?_⟩
          rw [hasId_congr_perm (cons_removeFirst_perm g.shapes id s
            (by simpa [SceneGraph.get_shape] using hf))]
          exact h.2 id' hid'
  | bringForward id =>
      show (g.bring_forward id).selectionInvariant
      unfold SceneGraph.bring_forward
      cases hsw : SceneGraph.swapForward g.shapes id with
      | mk l' moved =>
          cases moved
          · exact h
          · refine ⟨h.1, fun id' hid' => ?_⟩
            have hperm := swapForward_perm g.shapes id
            rw [hsw] at hperm
            show SceneGraph.hasId l' id' = true
            rw [hasId_congr_perm hperm]
            exact h.2 id' hid'
  | sendBackward id =>
      show (g.send_backward id).selectionInvariant
      unfold SceneGraph.send_backward
      cases hsw : SceneGraph.swapBackward g.shapes id with
      | mk l' moved =>
          cases moved
          · exact h
          · refine ⟨h.1, fun id' hid' => ?_⟩
            have hperm := swapBackward_perm g.shapes id
            rw [hsw] at hperm
            show SceneGraph.hasId l' id' = true
            rw [hasId_congr_perm hperm]
            exact h.2 id' hid'
  | transformSelection dp ds =>
      show (g.transform_selection dp ds).selectionInvariant
      unfold SceneGraph.transform_selection
      have hframe := transform_fold_frame dp ds g.selection g
      split
      · exact inv_of_frame g _ hframe.1 hframe.2 h
      · exact inv_of_frame g _ hframe.1 hframe.2 h
  | deleteSelection =>
      exact remove_fold_inv g.selection g h

/-- C10: in every scene graph reachable from `SceneGraph::new` by public
operations, the selection holds no duplicate ids and every selected id names
a shape present in the shape list. -/
theorem scene_graph_selection_invariant (ops : List SceneOp) :
    (SceneGraph.new.applyOps ops).selectionInvariant := by
  suffices hall : ∀ g : SceneGraph, g.selectionInvariant → (g.applyOps ops).selectionInvariant from
    hall _ ⟨List.nodup_nil, fun id hid => by cases hid⟩
  intro g hg
  induction ops generalizing g with
  | nil => exact hg
  | cons hd tl ih =>
      show ((g.applyOp hd).applyOps tl).selectionInvariant
      exact ih _ (applyOp_inv _ _ hg)

/-- Separator skipping never grows the stream. -/
theorem skip_le (cs : List Char) : (skip_whitespace_and_comma cs).length ≤ cs.length :=
  (List.dropWhile_sublist _).length_le

/-- `next_command` never grows the stream. -/
theorem next_command_rest_le (cs : List Char) : (next_command cs).2.length ≤ cs.length := by
  induction cs with
  | nil => simp [next_command]
  | cons c cs ih =>
      simp only [next_command]
      split
      · simp
      · split
        · exact ih.trans (by simp)
        · simp

/-- A returned command letter was consumed: the stream strictly shrank. -/
theorem next_command_some_lt (cs : List Char) (c : Char)
    (h : (next_command cs).1 = some c) : (next_command cs).2.length < cs.length := by
  induction cs with
  | nil => simp [next_command] at h
  | cons c0 cs ih =>
      simp only [next_command] at h ⊢
      by_cases ha : c0.isAlpha = true
      · rw [if_pos ha]
        simp
      · rw [if_neg ha] at h ⊢
        by_cases hw : isWsComma c0 = true
        · rw [if_pos hw] at h ⊢
          exact lt_of_lt_of_le (ih h) (by simp)
        · rw [if_neg hw] at h
          simp at h

/-- `scanSign` splits the stream. -/
theorem scanSign_len (cs : List Char) :
    (scanSign cs).1.length + (scanSign cs).2.length = cs.length := by
  cases cs with
  | nil => simp [scanSign]
  | cons c rest =>
      simp only [scanSign]
      split <;> simp [Nat.add_comm]

/-- `scanDigits` splits the stream. -/
theorem scanDigits_len (cs : List Char) :
    (scanDigits cs).1.length + (scanDigits cs).2.length = cs.length := by
  induction cs with
  | nil => simp [scanDigits]
  | cons c rest ih =>
      simp only [scanDigits]
      split
      · cases h : scanDigits rest with
        | mk d r =>
            rw [h] at ih
            simp only at ih
            simp only [h, List.length_cons]
            omega
      · simp

/-- `scanFrac` splits the stream. -/
theorem scanFrac_len (cs : List Char) :
    (scanFrac cs).1.length + (scanFrac cs).2.length = cs.length := by
  unfold scanFrac
  split
  · next rest =>
      cases h : scanDigits rest with
      | mk d r =>
          have e := scanDigits_len rest
          rw [h] at e
          simp only at e
          simp only [h, List.length_cons]
          omega
  · simp

/-- `scanExp` splits the stream. -/
theorem scanExp_len (cs : List Char) :
    (scanExp cs).1.length + (scanExp cs).2.length = cs.length := by
  unfold scanExp
  split
  · next c rest =>
      split
      · cases h1 : scanSign rest with
        | mk es r1 =>
            have e1 := scanSign_len rest
            rw [h1] at e1
            simp only at e1
            cases h2 : scanDigits r1 with
            | mk d3 r2 =>
                have e2 := scanDigits_len r1
                rw [h2] at e2
                simp only at e2
                simp only [h1, h2, List.length_cons, List.length_append]
                omega
      · simp
  · simp

/-- `collectNumberToken` splits the stream: every consumed character is
collected. -/
theorem collectNumberToken_len (cs : List Char) :
    (collectNumberToken cs).1.length + (collectNumberToken cs).2.length = cs.length := by
  have e1 := scanSign_len cs
  have e2 := scanDigits_len ((scanSign cs).2)
  have e3 := scanFrac_len ((scanDigits (scanSign cs).2).2)
  have e4 := scanExp_len ((scanFrac (scanDigits (scanSign cs).2).2).2)
  show ((scanSign cs).1 ++ ((scanDigits (scanSign cs).2).1 ++
      ((scanFrac (scanDigits (scanSign cs).2).2).1 ++
        (scanExp (scanFrac (scanDigits (scanSign cs).2).2).2).1))).length +
      (scanExp (scanFrac (scanDigits (scanSign cs).2).2).2).2.length = cs.length
  simp only [List.length_append]
  omega

/-- `next_number` never grows the stream. -/
theorem next_number_rest_le (cs : List Char) : (next_number cs).2.length ≤ cs.length := by
  have hc := collectNumberToken_len (skip_whitespace_and_comma cs)
  have hs := skip_le cs
  show (if (collectNumberToken (skip_whitespace_and_comma cs)).1 = [] ∨
        (collectNumberToken (skip_whitespace_and_comma cs)).1 = ['-'] ∨
        (collectNumberToken (skip_whitespace_and_comma cs)).1 = ['+'] then
      ((none : Option ℚ), (collectNumberToken (skip_whitespace_and_comma cs)).2)
    else (parseF32Token (collectNumberToken (skip_whitespace_and_comma cs)).1,
      (collectNumberToken (skip_whitespace_and_comma cs)).2)).2.length ≤ cs.length
  split
  · show (collectNumberToken (skip_whitespace_and_comma cs)).2.length ≤ cs.length
    omega
  · show (collectNumberToken (skip_whitespace_and_comma cs)).2.length ≤ cs.length
    omega

/-- A successfully parsed number consumed at least one character. -/
theorem next_number_some_lt (cs : List Char) (q : ℚ)
    (h : (next_number cs).1 = some q) : (next_number cs).2.length < cs.length := by
  have hc := collectNumberToken_len (skip_whitespace_and_comma cs)
  have hs := skip_le cs
  have hshow : next_number cs =
      (if (collectNumberToken (skip_whitespace_and_comma cs)).1 = [] ∨
        (collectNumberToken (skip_whitespace_and_comma cs)).1 = ['-'] ∨
        (collectNumberToken (skip_whitespace_and_comma cs)).1 = ['+'] then
      ((none : Option ℚ), (collectNumberToken (skip_whitespace_and_comma cs)).2)
    else (parseF32Token (collectNumberToken (skip_whitespace_and_comma cs)).1,
      (collectNumberToken (skip_whitespace_and_comma cs)).2)) := rfl
  rw [hshow] at h ⊢
  by_cases hcond : (collectNumberToken (skip_whitespace_and_comma cs)).1 = [] ∨
      (collectNumberToken (skip_whitespace_and_comma cs)).1 = ['-'] ∨
      (collectNumberToken (skip_whitespace_and_comma cs)).1 = ['+']
  · rw [if_pos hcond] at h
    simp at h
  · rw [if_neg hcond] at h ⊢
    show (collectNumberToken (skip_whitespace_and_comma cs)).2.length < cs.length
    have hempty : ¬(collectNumberToken (skip_whitespace_and_comma cs)).1 = [] := by
      intro hempty
      exact hcond (Or.inl hempty)
    have hpos : 0 < (collectNumberToken (skip_whitespace_and_comma cs)).1.length :=
      List.length_pos.2 hempty
    omega

/-- `peek_is_command` only skips separators. -/
theorem peek_le (cs : List Char) : (peek_is_command cs).2.length ≤ cs.length := skip_le cs

/-- `next_point` never grows the stream. -/
theorem next_point_rest_le (cs : List Char) : (next_point cs).2.length ≤ cs.length := by
  unfold next_point
  cases hp : peek_is_command cs with
  | mk isCmd cs1 =>
      have hle : cs1.length ≤ cs.length := by
        have h := peek_le cs
        rw [hp] at h
        exact h
      dsimp only
      by_cases hc : isCmd = true
      · rw [if_pos hc]
        exact hle
      · rw [if_neg hc]
        cases h1 : next_number cs1 with
        | mk o1 cs2 =>
            have hle1 : cs2.length ≤ cs1.length := by
              have h := next_number_rest_le cs1
              rw [h1] at h
              exact h
            cases o1 with
            | none => dsimp only; omega
            | some x =>
                dsimp only
                cases h2 : next_number cs2 with
                | mk o2 cs3 =>
                    have hle2 : cs3.length ≤ cs2.length := by
                      have h := next_number_rest_le cs2
                      rw [h2] at h
                      exact h
                    cases o2 with
                    | none => dsimp only; omega
                    | some y => dsimp only; omega

/-- A successfully read point consumed at least one character. -/
theorem next_point_some_lt (cs : List Char) (p : ℚ × ℚ)
    (h : (next_point cs).1 = some p) : (next_point cs).2.length < cs.length := by
  unfold next_point at h ⊢
  cases hp : peek_is_command cs with
  | mk isCmd cs1 =>
      rw [hp] at h
      have hle : cs1.length ≤ cs.length := by
        have hx := peek_le cs
        rw [hp] at hx
        exact hx
      dsimp only at h ⊢
      by_cases hc : isCmd = true
      · rw [if_pos hc] at h
        simp at h
      · rw [if_neg hc] at h ⊢
        cases h1 : next_number cs1 with
        | mk o1 cs2 =>
            rw [h1] at h
            have hlt1 : o1.isSome = true → cs2.length < cs1.length := by
              intro ho
              obtain ⟨x, hx⟩ := Option.isSome_iff_exists.1 ho
              have hq := next_number_some_lt cs1 x (by rw [h1, hx])
              rw [h1] at hq
              exact hq
            cases o1 with
            | none => dsimp only at h; simp at h
            | some x =>
                have hlt := hlt1 rfl
                dsimp only at h ⊢
                cases h2 : next_number cs2 with
                | mk o2 cs3 =>
                    rw [h2] at h
                    have hle2 : cs3.length ≤ cs2.length := by
                      have hq := next_number_rest_le cs2
                      rw [h2] at hq
                      exact hq
                    cases o2 with
                    | none => dsimp only; omega
                    | some y => dsimp only; omega

/-- `next_flag` never grows the stream. -/
theorem next_flag_rest_le (cs : List Char) : (next_flag cs).2.length ≤ cs.length := by
  unfold next_flag
  have hs := skip_le cs
  generalize hgen : skip_whitespace_and_comma cs = cs1 at hs ⊢
  dsimp only
  split
  · simp only [List.length_cons] at hs
    dsimp only
    omega
  · simp only [List.length_cons] at hs
    dsimp only
    omega
  · exact hs

/-- A successfully read flag consumed one character. -/
theorem next_flag_some_lt (cs : List Char) (b : Bool)
    (h : (next_flag cs).1 = some b) : (next_flag cs).2.length < cs.length := by
  unfold next_flag at h ⊢
  have hs := skip_le cs
  generalize hgen : skip_whitespace_and_comma cs = cs1 at hs h ⊢
  dsimp only at h ⊢
  split at h <;> dsimp only
  · next rest =>
      simp only [List.length_cons] at hs
      omega
  · next rest =>
      simp only [List.length_cons] at hs
      omega
  · simp at h

/-- `next_arc` never grows the stream. -/
theorem next_arc_rest_le (cs : List Char) : (next_arc cs).2.length ≤ cs.length := by
  unfold next_arc
  cases hp : peek_is_command cs with
  | mk isCmd cs1 =>
      have hle : cs1.length ≤ cs.length := by
        have h := peek_le cs
        rw [hp] at h
        exact h
      dsimp only
      by_cases hc : isCmd = true
      · rw [if_pos hc]
        exact hle
      · rw [if_neg hc]
        split
        · next r h10 =>
            have hb10 : r.length ≤ cs1.length := by
              have hq := next_number_rest_le cs1
              rw [h10] at hq
              exact hq
            dsimp only
            omega
        · next rx cs2 h10 =>
            have hb10 : cs2.length ≤ cs1.length := by
              have hq := next_number_rest_le cs1
              rw [h10] at hq
              exact hq
            split
            · next r h11 =>
                have hb11 : r.length ≤ cs2.length := by
                  have hq := next_number_rest_le cs2
                  rw [h11] at hq
                  exact hq
                dsimp only
                omega
            · next ry cs3 h11 =>
                have hb11 : cs3.length ≤ cs2.length := by
                  have hq := next_number_rest_le cs2
                  rw [h11] at hq
                  exact hq
                split
                · next r h12 =>
                    have hb12 : r.length ≤ cs3.length := by
                      have hq := next_number_rest_le cs3
                      rw [h12] at hq
                      exact hq
                    dsimp only
                    omega
                · next xrot cs4 h12 =>
                    have hb12 : cs4.length ≤ cs3.length := by
                      have hq := next_number_rest_le cs3
                      rw [h12] at hq
                      exact hq
                    split
                    · next r h13 =>
                        have hb13 : r.length ≤ cs4.length := by
                          have hq := next_flag_rest_le cs4
                          rw [h13] at hq
                          exact hq
                        dsimp only
                        omega
                    · next la cs5 h13 =>
                        have hb13 : cs5.length ≤ cs4.length := by
                          have hq := next_flag_rest_le cs4
                          rw [h13] at hq
                          exact hq
                        split
                        · next r h14 =>
                            have hb14 : r.length ≤ cs5.length := by
                              have hq := next_flag_rest_le cs5
                              rw [h14] at hq
                              exact hq
                            dsimp only
                            omega
                        · next sw cs6 h14 =>
                            have hb14 : cs6.length ≤ cs5.length := by
                              have hq := next_flag_rest_le cs5
                              rw [h14] at hq
                              exact hq
                            split
                            · next r h15 =>
                                have hb15 : r.length ≤ cs6.length := by
                                  have hq := next_number_rest_le cs6
                                  rw [h15] at hq
                                  exact hq
                                dsimp only
                                omega
                            · next x cs7 h15 =>
                                have hb15 : cs7.length ≤ cs6.length := by
                                  have hq := next_number_rest_le cs6
                                  rw [h15] at hq
                                  exact hq
                                split
                                · next r h16 =>
                                    have hb16 : r.length ≤ cs7.length := by
                                      have hq := next_number_rest_le cs7
                                      rw [h16] at hq
                                      exact hq
                                    dsimp only
                                    omega
                                · next y cs8 h16 =>
                                    have hb16 : cs8.length ≤ cs7.length := by
                                      have hq := next_number_rest_le cs7
                                      rw [h16] at hq
                                      exact hq
                                    dsimp only
                                    omega

/-- A successfully read arc consumed at least one character. -/
theorem next_arc_some_lt (cs : List Char) (a : ArcParams)
    (h : (next_arc cs).1 = some a) : (next_arc cs).2.length < cs.length := by
  unfold next_arc at h ⊢
  have hle := peek_le cs
  generalize hgen : peek_is_command cs = pc at h hle ⊢
  obtain ⟨isCmd, cs1⟩ := pc
  dsimp only at h hle ⊢
  by_cases hc : isCmd = true
  · rw [if_pos hc] at h
    simp at h
  · rw [if_neg hc] at h ⊢
    split at h
    · simp at h
    · next rx cs2 h10 =>
        have hb10 : cs2.length < cs1.length := by
          have hq := next_number_some_lt cs1 rx (by rw [h10])
          rw [h10] at hq
          exact hq
        split at h
        · simp at h
        · next ry cs3 h11 =>
            have hb11 : cs3.length ≤ cs2.length := by
              have hq := next_number_rest_le cs2
              rw [h11] at hq
              exact hq
            split at h
            · simp at h
            · next xrot cs4 h12 =>
                have hb12 : cs4.length ≤ cs3.length := by
                  have hq := next_number_rest_le cs3
                  rw [h12] at hq
                  exact hq
                split at h
                · simp at h
                · next la cs5 h13 =>
                    have hb13 : cs5.length ≤ cs4.length := by
                      have hq := next_flag_rest_le cs4
                      rw [h13] at hq
                      exact hq
                    split at h
                    · simp at h
                    · next sw cs6 h14 =>
                        have hb14 : cs6.length ≤ cs5.length := by
                          have hq := next_flag_rest_le cs5
                          rw [h14] at hq
                          exact hq
                        split at h
                        · simp at h
                        · next x cs7 h15 =>
                            have hb15 : cs7.length ≤ cs6.length := by
                              have hq := next_number_rest_le cs6
                              rw [h15] at hq
                              exact hq
                            split at h
                            · simp at h
                            · next y cs8 h16 =>
                                have hb16 : cs8.length ≤ cs7.length := by
                                  have hq := next_number_rest_le cs7
                                  rw [h16] at hq
                                  exact hq
                                dsimp only
                                omega

/-- The `'L'` loop never grows the stream. -/
theorem lineLoop_rest_le (fuel : ℕ) : ∀ (rel : Bool) (cur : Vec2) (cs : List Char),
    (lineLoop fuel rel cur cs).2.2.length ≤ cs.length := by
  induction fuel with
  | zero => intro rel cur cs; exact le_refl _
  | succ fuel ih =>
      intro rel cur cs
      unfold lineLoop
      cases hnp : next_point cs with
      | mk o rest =>
          have hr : rest.length ≤ cs.length := by
            have h := next_point_rest_le cs
            rw [hnp] at h
            exact h
          cases o with
          | none => exact hr
          | some p =>
              obtain ⟨x, y⟩ := p
              dsimp only
              exact le_trans (ih rel _ rest) hr

/-- The `'M'` loop never grows the stream. -/
theorem moveLoop_rest_le (fuel : ℕ) :
    ∀ (rel first : Bool) (cur start : Vec2) (cs : List Char),
      (moveLoop fuel rel first cur start cs).2.2.2.length ≤ cs.length := by
  induction fuel with
  | zero => intro rel first cur start cs; exact le_refl _
  | succ fuel ih =>
      intro rel first cur start cs
      unfold moveLoop
      cases hnp : next_point cs with
      | mk o rest =>
          have hr : rest.length ≤ cs.length := by
            have h := next_point_rest_le cs
            rw [hnp] at h
            exact h
          cases o with
          | none => exact hr
          | some p =>
              obtain ⟨x, y⟩ := p
              dsimp only
              split
              · exact le_trans (ih rel false _ _ rest) hr
              · exact le_trans (ih rel false _ _ rest) hr

/-- The `'H'` loop never grows the stream. -/
theorem hLoop_rest_le (fuel : ℕ) : ∀ (rel : Bool) (cur : Vec2) (cs : List Char),
    (hLoop fuel rel cur cs).2.2.length ≤ cs.length := by
  induction fuel with
  | zero => intro rel cur cs; exact le_refl _
  | succ fuel ih =>
      intro rel cur cs
      unfold hLoop
      cases hnp : next_number cs with
      | mk o rest =>
          have hr : rest.length ≤ cs.length := by
            have h := next_number_rest_le cs
            rw [hnp] at h
            exact h
          cases o with
          | none => exact hr
          | some q =>
              dsimp only
              exact le_trans (ih rel _ rest) hr

/-- The `'V'` loop never grows the stream. -/
theorem vLoop_rest_le (fuel : ℕ) : ∀ (rel : Bool) (cur : Vec2) (cs : List Char),
    (vLoop fuel rel cur cs).2.2.length ≤ cs.length := by
  induction fuel with
  | zero => intro rel cur cs; exact le_refl _
  | succ fuel ih =>
      intro rel cur cs
      unfold vLoop
      cases hnp : next_number cs with
      | mk o rest =>
          have hr : rest.length ≤ cs.length := by
            have h := next_number_rest_le cs
            rw [hnp] at h
            exact h
          cases o with
          | none => exact hr
          | some q =>
              dsimp only
              exact le_trans (ih rel _ rest) hr

/-- The `'C'` loop never grows the stream. -/
theorem cubicLoop_rest_le (fuel : ℕ) :
    ∀ (rel : Bool) (cur : Vec2) (lc : Option Vec2) (cs : List Char),
      (cubicLoop fuel rel cur lc cs).2.2.2.length ≤ cs.length := by
  induction fuel with
  | zero => intro rel cur lc cs; exact le_refl _
  | succ fuel ih =>
      intro rel cur lc cs
      unfold cubicLoop
      cases hnp : next_point cs with
      | mk o rest =>
          have hr : rest.length ≤ cs.length := by
            have h := next_point_rest_le cs
            rw [hnp] at h
            exact h
          cases o with
          | none => exact hr
          | some p =>
              obtain ⟨x1, y1⟩ := p
              dsimp only
              cases h2 : next_point rest with
              | mk o2 cs2 =>
                  have hb2 : cs2.length ≤ rest.length := by
                    have h := next_point_rest_le rest
                    rw [h2] at h
                    exact h
                  cases h3 : next_point cs2 with
                  | mk o3 cs3 =>
                      have hb3 : cs3.length ≤ cs2.length := by
                        have h := next_point_rest_le cs2
                        rw [h3] at h
                        exact h
                      dsimp only
                      exact le_trans (ih rel _ _ cs3) (by omega)

/-- The `'S'` loop never grows the stream. -/
theorem smoothCubicLoop_rest_le (fuel : ℕ) :
    ∀ (rel : Bool) (lastCmd : Option Char) (cur : Vec2) (lc : Option Vec2) (cs : List Char),
      (smoothCubicLoop fuel rel lastCmd cur lc cs).2.2.2.length ≤ cs.length := by
  induction fuel with
  | zero => intro rel lastCmd cur lc cs; exact le_refl _
  | succ fuel ih =>
      intro rel lastCmd cur lc cs
      unfold smoothCubicLoop
      cases hnp : next_point cs with
      | mk o rest =>
          have hr : rest.length ≤ cs.length := by
            have h := next_point_rest_le cs
            rw [hnp] at h
            exact h
          cases o with
          | none => exact hr
          | some p =>
              obtain ⟨x2, y2⟩ := p
              dsimp only
              cases h2 : next_point rest with
              | mk o2 cs2 =>
                  have hb2 : cs2.length ≤ rest.length := by
                    have h := next_point_rest_le rest
                    rw [h2] at h
                    exact h
                  dsimp only
                  exact le_trans (ih rel lastCmd _ _ cs2) (by omega)

/-- The `'Q'` loop never grows the stream. -/
theorem quadLoop_rest_le (fuel : ℕ) :
    ∀ (rel : Bool) (cur : Vec2) (lc : Option Vec2) (cs : List Char),
      (quadLoop fuel rel cur lc cs).2.2.2.length ≤ cs.length := by
  induction fuel with
  | zero => intro rel cur lc cs; exact le_refl _
  | succ fuel ih =>
      intro rel cur lc cs
      unfold quadLoop
      cases hnp : next_point cs with
      | mk o rest =>
          have hr : rest.length ≤ cs.length := by
            have h := next_point_rest_le cs
            rw [hnp] at h
            exact h
          cases o with
          | none => exact hr
          | some p =>
              obtain ⟨x1, y1⟩ := p
              dsimp only
              cases h2 : next_point rest with
              | mk o2 cs2 =>
                  have hb2 : cs2.length ≤ rest.length := by
                    have h := next_point_rest_le rest
                    rw [h2] at h
                    exact h
                  dsimp only
                  exact le_trans (ih rel _ _ cs2) (by omega)

/-- The `'T'` loop never grows the stream. -/
theorem smoothQuadLoop_rest_le (fuel : ℕ) :
    ∀ (rel : Bool) (lastCmd : Option Char) (cur : Vec2) (lc : Option Vec2) (cs : List Char),
      (smoothQuadLoop fuel rel lastCmd cur lc cs).2.2.2.length ≤ cs.length := by
  induction fuel with
  | zero => intro rel lastCmd cur lc cs; exact le_refl _
  | succ fuel ih =>
      intro rel lastCmd cur lc cs
      unfold smoothQuadLoop
      cases hnp : next_point cs with
      | mk o rest =>
          have hr : rest.length ≤ cs.length := by
            have h := next_point_rest_le cs
            rw [hnp] at h
            exact h
          cases o with
          | none => exact hr
          | some p =>
              obtain ⟨x, y⟩ := p
              dsimp only
              exact le_trans (ih rel lastCmd _ _ rest) hr

/-- The `'A'` loop never grows the stream. -/
theorem arcLoop_rest_le (fuel : ℕ) : ∀ (rel : Bool) (cur : Vec2) (cs : List Char),
    (arcLoop fuel rel cur cs).2.2.length ≤ cs.length := by
  induction fuel with
  | zero => intro rel cur cs; exact le_refl _
  | succ fuel ih =>
      intro rel cur cs
      unfold arcLoop
      cases hnp : next_arc cs with
      | mk o rest =>
          have hr : rest.length ≤ cs.length := by
            have h := next_arc_rest_le cs
            rw [hnp] at h
            exact h
          cases o with
          | none => exact hr
          | some arc =>
              dsimp only
              exact le_trans (ih rel _ rest) hr

/-- `runCommand` never grows the stream. -/
theorem runCommand_rest_le (st : ParseState) (cmd : Char) (cs1 : List Char) :
    (runCommand st cmd cs1).2.2.length ≤ cs1.length := by
  delta runCommand
  by_cases h0 : cmd.toUpper = 'M'
  · rw [if_pos h0]
    exact moveLoop_rest_le _ _ _ _ _ _
  · rw [if_neg h0]
    by_cases h1 : cmd.toUpper = 'L'
    · rw [if_pos h1]
      exact lineLoop_rest_le _ _ _ _
    · rw [if_neg h1]
      by_cases h2 : cmd.toUpper = 'H'
      · rw [if_pos h2]
        exact hLoop_rest_le _ _ _ _
      · rw [if_neg h2]
        by_cases h3 : cmd.toUpper = 'V'
        · rw [if_pos h3]
          exact vLoop_rest_le _ _ _ _
        · rw [if_neg h3]
          by_cases h4 : cmd.toUpper = 'C'
          · rw [if_pos h4]
            exact cubicLoop_rest_le _ _ _ _ _
          · rw [if_neg h4]
            by_cases h5 : cmd.toUpper = 'S'
            · rw [if_pos h5]
              exact smoothCubicLoop_rest_le _ _ _ _ _ _
            · rw [if_neg h5]
              by_cases h6 : cmd.toUpper = 'Q'
              · rw [if_pos h6]
                exact quadLoop_rest_le _ _ _ _ _
              · rw [if_neg h6]
                by_cases h7 : cmd.toUpper = 'T'
                · rw [if_pos h7]
                  exact smoothQuadLoop_rest_le _ _ _ _ _ _
                · rw [if_neg h7]
                  by_cases h8 : cmd.toUpper = 'A'
                  · rw [if_pos h8]
                    exact arcLoop_rest_le _ _ _ _
                  · rw [if_neg h8]
                    by_cases h9 : cmd.toUpper = 'Z'
                    · rw [if_pos h9]
                    · rw [if_neg h9]

/-- The main parse loop is fuel-stable: any fuel beyond the stream length
gives the same result.  (With the handler loops bounded by their own stream
lengths, each main-loop iteration strictly consumes input, so fuel
`length + 1` suffices: the embedded parser is total on every input.) -/
theorem parseLoop_fuel (n : ℕ) : ∀ (cs : List Char), cs.length ≤ n →
    ∀ (st : ParseState) (f g : ℕ), cs.length < f → cs.length < g →
      parseLoop f st cs = parseLoop g st cs := by
  induction n with
  | zero =>
      intro cs hcs st f g hf hg
      obtain ⟨f, rfl⟩ : ∃ f', f = f' + 1 := ⟨f - 1, by omega⟩
      obtain ⟨g, rfl⟩ : ∃ g', g = g' + 1 := ⟨g - 1, by omega⟩
      have : cs = [] := List.length_eq_zero.1 (by omega)
      subst this
      rfl
  | succ n ih =>
      intro cs hcs st f g hf hg
      obtain ⟨f, rfl⟩ : ∃ f', f = f' + 1 := ⟨f - 1, by omega⟩
      obtain ⟨g, rfl⟩ : ∃ g', g = g' + 1 := ⟨g - 1, by omega⟩
      show parseLoop (f + 1) st cs = parseLoop (g + 1) st cs
      unfold parseLoop
      cases hnc : next_command cs with
      | mk o cs1 =>
          cases o with
          | none => rfl
          | some cmd =>
              have hlt : cs1.length < cs.length := by
                have h := next_command_some_lt cs cmd (by rw [hnc])
                rw [hnc] at h
                exact h
              have hre : (runCommand st cmd cs1).2.2.length ≤ cs1.length :=
                runCommand_rest_le st cmd cs1
              dsimp only
              exact congrArg (fun l => (runCommand st cmd cs1).1 ++ l)
                (ih (runCommand st cmd cs1).2.2 (by omega) (runCommand st cmd cs1).2.1
                  f g (by omega) (by omega))

/-- C2 counterexample: on a scene graph whose flags were cleared,
`bring_to_front` of an existing shape id sets only `scene_dirty`: the shape's
own dirty flag stays `false` and the id is not in `dirty_shape_ids()` —
refuting the claim that every listed structural mutation sets all three.
(`remove_shape` even removes the id from the dirty set.) -/
theorem bring_to_front_does_not_mark_shape_dirty :
    SceneGraph.hasId ((SceneGraph.new.add_shape (Shape.with_id 1
      (ShapeGeometry.rectangle 10 5) (ShapeStyle.fill_only Color.black))).clear_dirty).shapes 1
      = true ∧
    (((SceneGraph.new.add_shape (Shape.with_id 1 (ShapeGeometry.rectangle 10 5)
        (ShapeStyle.fill_only Color.black))).clear_dirty.bring_to_front 1).scene_dirty = true) ∧
    ((((SceneGraph.new.add_shape (Shape.with_id 1 (ShapeGeometry.rectangle 10 5)
        (ShapeStyle.fill_only Color.black))).clear_dirty.bring_to_front 1).get_shape 1).map
        Shape.dirty = some false) ∧
    (((SceneGraph.new.add_shape (Shape.with_id 1 (ShapeGeometry.rectangle 10 5)
        (ShapeStyle.fill_only Color.black))).clear_dirty.bring_to_front 1).dirty_shapes.contains 1
        = false) ∧
    (((SceneGraph.new.add_shape (Shape.with_id 1 (ShapeGeometry.rectangle 10 5)
        (ShapeStyle.fill_only Color.black))).remove_shape 1).dirty_shapes.contains 1 = false) := by
  decide

/-- C2 (amended): on an existing shape id, `set_transform`/`set_style`/
`set_geometry` set the shape's dirty flag, insert the id into the dirty set
and raise `scene_dirty`; `add_shape` inserts the new id and raises
`scene_dirty`; the z-order operations mutate no shape record — the new shape
list is a permutation of the old, so every shape's own dirty flag is left
unchanged — and leave the dirty-id set unchanged, with
`bring_to_front`/`send_to_back` raising `scene_dirty` unconditionally while
`bring_forward`/`send_backward` raise it exactly when a swap happens
(`scene_dirty` is unchanged otherwise); `remove_shape` raises `scene_dirty`
and removes the id from the dirty set. -/
theorem scene_graph_dirty_tracking (g : SceneGraph) (id : ℕ) (t : Transform2D)
    (style : ShapeStyle) (geo : ShapeGeometry) (s : Shape)
    (h : SceneGraph.hasId g.shapes id = true) :
    (((g.set_transform id t).get_shape id).map Shape.dirty = some true ∧
      id ∈ (g.set_transform id t).dirty_shapes ∧ (g.set_transform id t).scene_dirty = true) ∧
    (((g.set_style id style).get_shape id).map Shape.dirty = some true ∧
      id ∈ (g.set_style id style).dirty_shapes ∧ (g.set_style id style).scene_dirty = true) ∧
    (((g.set_geometry id geo).get_shape id).map Shape.dirty = some true ∧
      id ∈ (g.set_geometry id geo).dirty_shapes ∧ (g.set_geometry id geo).scene_dirty = true) ∧
    (s.id ∈ (g.add_shape s).dirty_shapes ∧ (g.add_shape s).scene_dirty = true) ∧
    ((g.bring_to_front id).scene_dirty = true ∧
      (g.bring_to_front id).dirty_shapes = g.dirty_shapes ∧
      (g.bring_to_front id).shapes.Perm g.shapes) ∧
    ((g.send_to_back id).scene_dirty = true ∧
      (g.send_to_back id).dirty_shapes = g.dirty_shapes ∧
      (g.send_to_back id).shapes.Perm g.shapes) ∧
    ((g.bring_forward id).scene_dirty =
        ((SceneGraph.swapForward g.shapes id).2 || g.scene_dirty) ∧
      (g.bring_forward id).dirty_shapes = g.dirty_shapes ∧
      (g.bring_forward id).shapes.Perm g.shapes) ∧
    ((g.send_backward id).scene_dirty =
        ((SceneGraph.swapBackward g.shapes id).2 || g.scene_dirty) ∧
      (g.send_backward id).dirty_shapes = g.dirty_shapes ∧
      (g.send_backward id).shapes.Perm g.shapes) ∧
    ((g.remove_shape id).scene_dirty = true ∧
      (g.remove_shape id).dirty_shapes = g.dirty_shapes.erase id) := by
  have hfind : (g.shapes.find? (fun s => s.id = id)).isSome = true :=
    (hasId_iff_find?_isSome _ _).1 h
  obtain ⟨sfound, hsfound⟩ := Option.isSome_iff_exists.1 hfind
  refine ⟨⟨?_, ?_, ?_⟩, ⟨?_, ?_, ?_⟩, ⟨?_, ?_, ?_⟩, ⟨?_, ?_⟩, ⟨?_, ?_, ?_⟩, ⟨?_, ?_, ?_⟩,
    ⟨?_, ?_, ?_⟩, ⟨?_, ?_, ?_⟩, ⟨?_, ?_⟩⟩
  · simp only [SceneGraph.set_transform, h, if_true, SceneGraph.get_shape]
    exact find?_modifyFirstById_dirty (fun s => { s with transform := t, dirty := true })
      (fun _ => rfl) (fun _ => rfl) _ _ h
  · simp [SceneGraph.set_transform, h, SceneGraph.setInsert, List.mem_insert_self]
  · simp [SceneGraph.set_transform, h]
  · simp only [SceneGraph.set_style, h, if_true, SceneGraph.get_shape]
    exact find?_modifyFirstById_dirty (fun s => { s with style := style, dirty := true })
      (fun _ => rfl) (fun _ => rfl) _ _ h
  · simp [SceneGraph.set_style, h, SceneGraph.setInsert, List.mem_insert_self]
  · simp [SceneGraph.set_style, h]
  · simp only [SceneGraph.set_geometry, h, if_true, SceneGraph.get_shape]
    exact find?_modifyFirstById_dirty (fun s => { s with geometry := geo, dirty := true })
      (fun _ => rfl) (fun _ => rfl) _ _ h
  · simp [SceneGraph.set_geometry, h, SceneGraph.setInsert, List.mem_insert_self]
  · simp [SceneGraph.set_geometry, h]
  · simp [SceneGraph.add_shape, SceneGraph.setInsert, List.mem_insert_self]
  · simp [SceneGraph.add_shape]
  · simp [SceneGraph.bring_to_front, SceneGraph.get_shape, hsfound]
  · simp [SceneGraph.bring_to_front, SceneGraph.get_shape, hsfound]
  · simp only [SceneGraph.bring_to_front, SceneGraph.get_shape, hsfound]
    exact removeFirst_append_perm g.shapes id sfound hsfound
  · simp [SceneGraph.send_to_back, SceneGraph.get_shape, hsfound]
  · simp [SceneGraph.send_to_back, SceneGraph.get_shape, hsfound]
  · simp only [SceneGraph.send_to_back, SceneGraph.get_shape, hsfound]
    exact cons_removeFirst_perm g.shapes id sfound hsfound
  · simp only [SceneGraph.bring_forward]
    split
    · next hm => rw [hm]; rfl
    · next hm =>
        rw [Bool.not_eq_true] at hm
        rw [hm]
        rfl
  · simp only [SceneGraph.bring_forward]
    split <;> rfl
  · simp only [SceneGraph.bring_forward]
    split
    · exact swapForward_perm g.shapes id
    · exact List.Perm.refl _
  · simp only [SceneGraph.send_backward]
    split
    · next hm => rw [hm]; rfl
    · next hm =>
        rw [Bool.not_eq_true] at hm
        rw [hm]
        rfl
  · simp only [SceneGraph.send_backward]
    split <;> rfl
  · simp only [SceneGraph.send_backward]
    split
    · exact swapBackward_perm g.shapes id
    · exact List.Perm.refl _
  · simp [SceneGraph.remove_shape, h]
  · simp [SceneGraph.remove_shape, h]

/-- C2 (amended) witness: the `set_transform` clause of
`scene_graph_dirty_tracking` at a concrete one-shape graph. -/
theorem scene_graph_dirty_tracking_witness :
    (((SceneGraph.new.add_shape (Shape.with_id 1 (ShapeGeometry.rectangle 10 5)
        (ShapeStyle.fill_only Color.black))).set_transform 1
          Transform2D.identity).get_shape 1).map Shape.dirty = some true :=
  (scene_graph_dirty_tracking
    (SceneGraph.new.add_shape (Shape.with_id 1 (ShapeGeometry.rectangle 10 5)
      (ShapeStyle.fill_only Color.black))) 1 Transform2D.identity
    (ShapeStyle.fill_only Color.black) (ShapeGeometry.rectangle 10 5)
    (Shape.with_id 1 (ShapeGeometry.rectangle 10 5) (ShapeStyle.fill_only Color.black))
    (by decide)).1.1

/-- C7: `parse_svg_path` is total on every input string — the command loop
terminates within `|input| + 1` iterations, so giving it any extra fuel
changes nothing (each iteration strictly consumes input; in Rust this is the
`while let Some(cmd) = tokenizer.next_command()` loop, which can never spin
or panic).  Failure semantics: a malformed or incomplete trailing numeric
token (`"L30"` missing the y coordinate) ends consumption for that command
without error; an unknown command letter (`X`) produces no commands and is
skipped (parsing continues at the following command, so the `Z` after it is
still parsed); the numeric arguments of an unknown letter (`K5 5`) are not
consumed as commands, so the loop stops at the first non-alphabetic
character. -/
theorem parse_svg_path_total :
    (∀ (d : String) (k : ℕ),
      parseLoop (d.data.length + 1 + k) ⟨Vec2.ZERO, Vec2.ZERO, none, none⟩ d.data =
        parse_svg_path d) ∧
    parse_svg_path "M10 20 L30" = [PathCommand.MoveTo ⟨10, 20⟩] ∧
    parse_svg_path "M10 20 X Z" =
      [PathCommand.MoveTo ⟨10, 20⟩, PathCommand.Close] ∧
    parse_svg_path "M10 20 K5 5 L1 2" = [PathCommand.MoveTo ⟨10, 20⟩] := by
  refine ⟨?_, by decide, by decide, by decide⟩
  intro d k
  exact parseLoop_fuel d.data.length d.data (le_refl _) _ _ _ (by omega) (by omega)

/-! ## C6: arc segmentation -/

open scoped Real

/-- The rotation by `phi` preserves the squared norm of `(dx, dy)`. -/
theorem arc_x1p_sq_add_y1p_sq (a : ArcInput) :
    Arc.x1p a ^ 2 + Arc.y1p a ^ 2 = Arc.dx a ^ 2 + Arc.dy a ^ 2 := by
  have h := Real.sin_sq_add_cos_sq (Arc.phi a)
  simp only [Arc.x1p, Arc.y1p]
  linear_combination (Arc.dx a ^ 2 + Arc.dy a ^ 2) * h

/-- For `from ≠ to`, the rotated midpoint offset `(x1', y1')` is nonzero. -/
theorem arc_pos_sq (a : ArcInput) (hft : a.fromPt ≠ a.toPt) :
    0 < Arc.x1p a ^ 2 + Arc.y1p a ^ 2 := by
  rw [arc_x1p_sq_add_y1p_sq]
  have hne : Arc.dx a ≠ 0 ∨ Arc.dy a ≠ 0 := by
    by_contra hcon
    push_neg at hcon
    obtain ⟨h1, h2⟩ := hcon
    apply hft
    have hx : a.fromPt.x = a.toPt.x := by
      have := h1
      unfold Arc.dx at this
      linarith
    have hy : a.fromPt.y = a.toPt.y := by
      have := h2
      unfold Arc.dy at this
      linarith
    calc a.fromPt = ⟨a.fromPt.x, a.fromPt.y⟩ := rfl
      _ = ⟨a.toPt.x, a.toPt.y⟩ := by rw [hx, hy]
      _ = a.toPt := rfl
  rcases hne with h | h
  · have h1 : 0 < Arc.dx a ^ 2 :=
      lt_of_le_of_ne (sq_nonneg _) (Ne.symm (pow_ne_zero 2 h))
    nlinarith [sq_nonneg (Arc.dy a)]
  · have h1 : 0 < Arc.dy a ^ 2 :=
      lt_of_le_of_ne (sq_nonneg _) (Ne.symm (pow_ne_zero 2 h))
    nlinarith [sq_nonneg (Arc.dx a)]

/-- For `rx ≠ 0` the effective x-radius after `abs` and the scale-up branch
is positive. -/
theorem arc_rx2_pos (a : ArcInput) (h : a.rx ≠ 0) : 0 < Arc.rx2 a := by
  have h1 : 0 < Arc.rx1 a := abs_pos.2 h
  unfold Arc.rx2
  by_cases hlam : 1 < Arc.lam a
  · rw [if_pos hlam]
    exact mul_pos h1 (Real.sqrt_pos.2 (by linarith))
  · rw [if_neg hlam]
    exact h1

/-- For `ry ≠ 0` the effective y-radius after `abs` and the scale-up branch
is positive. -/
theorem arc_ry2_pos (a : ArcInput) (h : a.ry ≠ 0) : 0 < Arc.ry2 a := by
  have h1 : 0 < Arc.ry1 a := abs_pos.2 h
  unfold Arc.ry2
  by_cases hlam : 1 < Arc.lam a
  · rw [if_pos hlam]
    exact mul_pos h1 (Real.sqrt_pos.2 (by linarith))
  · rw [if_neg hlam]
    exact h1

/-- The clamped-`acos` angle helper: whenever the norm product is nonzero
and the normalized dot product is strictly below `1`, the returned angle is
nonzero and of magnitude at most `π`. -/
theorem arc_angleF_bounds (u1 u2 v1 v2 : ℝ)
    (hn : Real.sqrt (u1 * u1 + u2 * u2) * Real.sqrt (v1 * v1 + v2 * v2) ≠ 0)
    (hlt : (u1 * v1 + u2 * v2) /
        (Real.sqrt (u1 * u1 + u2 * u2) * Real.sqrt (v1 * v1 + v2 * v2)) < 1) :
    Arc.angleF u1 u2 v1 v2 ≠ 0 ∧ |Arc.angleF u1 u2 v1 v2| ≤ π := by
  have hcl : max (-1) (min 1 ((u1 * v1 + u2 * v2) /
      (Real.sqrt (u1 * u1 + u2 * u2) * Real.sqrt (v1 * v1 + v2 * v2)))) < 1 :=
    max_lt (by norm_num) (lt_of_le_of_lt (min_le_right _ _) hlt)
  have hpos : 0 < Real.arccos (max (-1) (min 1 ((u1 * v1 + u2 * v2) /
      (Real.sqrt (u1 * u1 + u2 * u2) * Real.sqrt (v1 * v1 + v2 * v2))))) :=
    Real.arccos_pos.2 hcl
  have hpi : Real.arccos (max (-1) (min 1 ((u1 * v1 + u2 * v2) /
      (Real.sqrt (u1 * u1 + u2 * u2) * Real.sqrt (v1 * v1 + v2 * v2))))) ≤ π :=
    Real.arccos_le_pi _
  simp only [Arc.angleF]
  rw [if_neg hn]
  constructor
  · split
    · exact neg_ne_zero.2 hpos.ne'
    · exact hpos.ne'
  · split
    · rw [abs_neg, abs_of_pos hpos]
      exact hpi
    · rw [abs_of_pos hpos]
      exact hpi

/-- The pre-adjustment sweep `dtheta` is nonzero and of magnitude at most
`π` on non-degenerate inputs. -/
theorem arc_dtheta0_spec (a : ArcInput) (hft : a.fromPt ≠ a.toPt)
    (hrx : a.rx ≠ 0) (hry : a.ry ≠ 0) :
    Arc.dtheta0 a ≠ 0 ∧ |Arc.dtheta0 a| ≤ π := by
  have hrx2 := arc_rx2_pos a hrx
  have hry2 := arc_ry2_pos a hry
  have hux : Arc.ux a = Arc.x1p a / Arc.rx2 a - Arc.sq a * (Arc.y1p a / Arc.ry2 a) := by
    unfold Arc.ux Arc.cxp
    field_simp
    ring
  have huy : Arc.uy a = Arc.y1p a / Arc.ry2 a + Arc.sq a * (Arc.x1p a / Arc.rx2 a) := by
    unfold Arc.uy Arc.cyp
    field_simp
    ring
  have hvx : Arc.vx a = -(Arc.x1p a / Arc.rx2 a) - Arc.sq a * (Arc.y1p a / Arc.ry2 a) := by
    unfold Arc.vx Arc.cxp
    field_simp
    ring
  have hvy : Arc.vy a = -(Arc.y1p a / Arc.ry2 a) + Arc.sq a * (Arc.x1p a / Arc.rx2 a) := by
    unfold Arc.vy Arc.cyp
    field_simp
    ring
  have h0 := arc_pos_sq a hft
  have hone : Arc.x1p a ≠ 0 ∨ Arc.y1p a ≠ 0 := by
    by_contra hc
    push_neg at hc
    rw [hc.1, hc.2] at h0
    norm_num at h0
  have hpq : 0 < (Arc.x1p a / Arc.rx2 a) ^ 2 + (Arc.y1p a / Arc.ry2 a) ^ 2 := by
    rcases hone with h | h
    · have h1 : 0 < (Arc.x1p a / Arc.rx2 a) ^ 2 :=
        lt_of_le_of_ne (sq_nonneg _) (Ne.symm (pow_ne_zero 2 (div_ne_zero h hrx2.ne')))
      nlinarith [sq_nonneg (Arc.y1p a / Arc.ry2 a)]
    · have h1 : 0 < (Arc.y1p a / Arc.ry2 a) ^ 2 :=
        lt_of_le_of_ne (sq_nonneg _) (Ne.symm (pow_ne_zero 2 (div_ne_zero h hry2.ne')))
      nlinarith [sq_nonneg (Arc.x1p a / Arc.rx2 a)]
  have hm : 0 < (1 + Arc.sq a ^ 2) *
      ((Arc.x1p a / Arc.rx2 a) ^ 2 + (Arc.y1p a / Arc.ry2 a) ^ 2) :=
    mul_pos (by positivity) hpq
  have hu2 : Arc.ux a * Arc.ux a + Arc.uy a * Arc.uy a = (1 + Arc.sq a ^ 2) *
      ((Arc.x1p a / Arc.rx2 a) ^ 2 + (Arc.y1p a / Arc.ry2 a) ^ 2) := by
    rw [hux, huy]; ring
  have hv2 : Arc.vx a * Arc.vx a + Arc.vy a * Arc.vy a = (1 + Arc.sq a ^ 2) *
      ((Arc.x1p a / Arc.rx2 a) ^ 2 + (Arc.y1p a / Arc.ry2 a) ^ 2) := by
    rw [hvx, hvy]; ring
  have hdot : Arc.ux a * Arc.vx a + Arc.uy a * Arc.vy a = (Arc.sq a ^ 2 - 1) *
      ((Arc.x1p a / Arc.rx2 a) ^ 2 + (Arc.y1p a / Arc.ry2 a) ^ 2) := by
    rw [hux, huy, hvx, hvy]; ring
  have hnval : Real.sqrt (Arc.ux a * Arc.ux a + Arc.uy a * Arc.uy a) *
      Real.sqrt (Arc.vx a * Arc.vx a + Arc.vy a * Arc.vy a) = (1 + Arc.sq a ^ 2) *
      ((Arc.x1p a / Arc.rx2 a) ^ 2 + (Arc.y1p a / Arc.ry2 a) ^ 2) := by
    rw [hu2, hv2, Real.mul_self_sqrt hm.le]
  have hn0 : Real.sqrt (Arc.ux a * Arc.ux a + Arc.uy a * Arc.uy a) *
      Real.sqrt (Arc.vx a * Arc.vx a + Arc.vy a * Arc.vy a) ≠ 0 := by
    rw [hnval]; exact hm.ne'
  have hlt : (Arc.ux a * Arc.vx a + Arc.uy a * Arc.vy a) /
      (Real.sqrt (Arc.ux a * Arc.ux a + Arc.uy a * Arc.uy a) *
        Real.sqrt (Arc.vx a * Arc.vx a + Arc.vy a * Arc.vy a)) < 1 := by
    rw [hnval, hdot, div_lt_one hm]
    nlinarith [hpq]
  have hres := arc_angleF_bounds (Arc.ux a) (Arc.uy a) (Arc.vx a) (Arc.vy a) hn0 hlt
  exact hres

/-- After the sweep adjustment, `dtheta` is still nonzero. -/
theorem arc_dtheta_ne_zero (a : ArcInput) (hft : a.fromPt ≠ a.toPt)
    (hrx : a.rx ≠ 0) (hry : a.ry ≠ 0) : Arc.dtheta a ≠ 0 := by
  obtain ⟨h0, hpi⟩ := arc_dtheta0_spec a hft hrx hry
  rcases abs_le.1 hpi with ⟨hl, hr⟩
  have hπ := Real.pi_pos
  unfold Arc.dtheta
  by_cases h1 : a.sweep = false ∧ 0 < Arc.dtheta0 a
  · rw [if_pos h1]
    intro hc
    linarith [h1.2]
  · rw [if_neg h1]
    by_cases h2 : a.sweep = true ∧ Arc.dtheta0 a < 0
    · rw [if_pos h2]
      intro hc
      linarith [h2.2]
    · rw [if_neg h2]
      exact h0

/-- C6: on a non-degenerate arc (`from ≠ to`, `rx ≠ 0`, `ry ≠ 0`),
`arc_to_beziers` emits exactly `⌈|Δθ| / (π/2)⌉` cubic segments (the
`.max(1)` in the source is redundant there because `Δθ ≠ 0`), each spanning
the same angle `segment_angle` (they sum to `Δθ`), and that common span is
at most `π/2` in magnitude — no emitted Bézier spans more than 90° of
arc. -/
theorem arc_to_beziers_segments (a : ArcInput)
    (hft : a.fromPt ≠ a.toPt) (hrx : a.rx ≠ 0) (hry : a.ry ≠ 0) :
    (arc_to_beziers a).length = ⌈|Arc.dtheta a| / (π / 2)⌉₊ ∧
    |Arc.segment_angle a| ≤ π / 2 ∧
    (Arc.num_segments a : ℝ) * Arc.segment_angle a = Arc.dtheta a := by
  have hdne : Arc.dtheta a ≠ 0 := arc_dtheta_ne_zero a hft hrx hry
  have habs : 0 < |Arc.dtheta a| := abs_pos.2 hdne
  have hπ := Real.pi_pos
  have hhalf : (0 : ℝ) < π / 2 := by linarith
  have hceil1 : 1 ≤ ⌈|Arc.dtheta a| / (π / 2)⌉₊ :=
    Nat.one_le_ceil_iff.2 (div_pos habs hhalf)
  have hns : Arc.num_segments a = ⌈|Arc.dtheta a| / (π / 2)⌉₊ := by
    unfold Arc.num_segments
    exact max_eq_left hceil1
  have hnpos : 0 < Arc.num_segments a := by rw [hns]; exact hceil1
  have hnr : (0 : ℝ) < (Arc.num_segments a : ℝ) := by exact_mod_cast hnpos
  refine ⟨?_, ?_, ?_⟩
  · have hguard : ¬(Arc.rx1 a = 0 ∨ Arc.ry1 a = 0) := by
      rintro (h | h)
      · exact hrx (abs_eq_zero.1 h)
      · exact hry (abs_eq_zero.1 h)
    unfold arc_to_beziers
    rw [if_neg hft, if_neg hguard, List.length_map, List.length_range, hns]
  · unfold Arc.segment_angle
    rw [abs_div, abs_of_pos hnr, div_le_iff₀ hnr]
    have hle := Nat.le_ceil (|Arc.dtheta a| / (π / 2))
    rw [← hns] at hle
    have h2 := (div_le_iff₀ hhalf).1 hle
    linarith
  · unfold Arc.segment_angle
    rw [mul_comm]
    exact div_mul_cancel₀ _ hnr.ne'

/-- C6 witness: `arc_to_beziers_segments` at a concrete unit semicircle
(`from = (0,0)`, `to = (2,0)`, `rx = ry = 1`, no rotation, sweep). -/
theorem arc_to_beziers_segments_witness :
    (arc_to_beziers ⟨⟨0, 0⟩, 1, 1, 0, false, true, ⟨2, 0⟩⟩).length =
      ⌈|Arc.dtheta ⟨⟨0, 0⟩, 1, 1, 0, false, true, ⟨2, 0⟩⟩| / (π / 2)⌉₊ ∧
    |Arc.segment_angle ⟨⟨0, 0⟩, 1, 1, 0, false, true, ⟨2, 0⟩⟩| ≤ π / 2 ∧
    (Arc.num_segments ⟨⟨0, 0⟩, 1, 1, 0, false, true, ⟨2, 0⟩⟩ : ℝ) *
      Arc.segment_angle ⟨⟨0, 0⟩, 1, 1, 0, false, true, ⟨2, 0⟩⟩ =
      Arc.dtheta ⟨⟨0, 0⟩, 1, 1, 0, false, true, ⟨2, 0⟩⟩ :=
  arc_to_beziers_segments _ (by simp) one_ne_zero one_ne_zero

/-! ## C1: tessellation vertices versus `local_bounds` -/

/-- Unfolding of `BBox.contains` into the four coordinate inequalities. -/
theorem contains_iff (bb : BBox) (p : Vec2) :
    bb.contains p = true ↔
      bb.min.x ≤ p.x ∧ p.x ≤ bb.max.x ∧ bb.min.y ≤ p.y ∧ p.y ≤ bb.max.y := by
  simp [BBox.contains, and_assoc]

/-- C1 counterexample: `ShapeGeometry::local_bounds` collects only the *end*
points of path commands and ignores Bézier control points, so the fill mesh
of a quadratic whose control point leaves the end-point box has vertices
outside `local_bounds()` — here the flattened curve through control point
`(5, 100)` reaches `y = 50` while the bounds box is `(0,0)–(10,0)`. -/
theorem path_fill_vertex_escapes_local_bounds :
    ∃ v ∈ (tessellate_shape_at_origin ⟨1,
        ShapeGeometry.Path [PathCommand.MoveTo ⟨0, 0⟩, PathCommand.LineTo ⟨10, 0⟩,
          PathCommand.QuadraticTo ⟨5, 100⟩ ⟨5, 0⟩, PathCommand.Close],
        Transform2D.identity, ShapeStyle.fill_only Color.black, true⟩).vertices,
      ((ShapeGeometry.Path [PathCommand.MoveTo ⟨0, 0⟩, PathCommand.LineTo ⟨10, 0⟩,
          PathCommand.QuadraticTo ⟨5, 100⟩ ⟨5, 0⟩,
          PathCommand.Close]).local_bounds).contains v.position = false := by
  have hverts : (tessellate_shape_at_origin ⟨1,
      ShapeGeometry.Path [PathCommand.MoveTo ⟨0, 0⟩, PathCommand.LineTo ⟨10, 0⟩,
        PathCommand.QuadraticTo ⟨5, 100⟩ ⟨5, 0⟩, PathCommand.Close],
      Transform2D.identity, ShapeStyle.fill_only Color.black, true⟩).vertices =
      (⟨0, 0⟩ :: ⟨10, 0⟩ ::
        (flattenQuadTail ⟨10, 0⟩ ⟨5, 100⟩ ⟨5, 0⟩ ++ [])).map
          (fun p => (⟨p, Color.black⟩ : Vertex)) := rfl
  rw [hverts]
  have hmem : quadPoint ⟨10, 0⟩ ⟨5, 100⟩ ⟨5, 0⟩ ((((7 : ℕ) : ℚ) + 1) / (curveSegments : ℚ)) ∈
      flattenQuadTail ⟨10, 0⟩ ⟨5, 100⟩ ⟨5, 0⟩ := by
    unfold flattenQuadTail
    exact List.mem_map.2 ⟨7, List.mem_range.2 (by decide), rfl⟩
  refine ⟨_, List.mem_map_of_mem _ (List.mem_cons_of_mem _ (List.mem_cons_of_mem _
    (List.mem_append_left _ hmem))), ?_⟩
  rw [Bool.eq_false_iff]
  intro hcon
  rw [contains_iff] at hcon
  have hy := hcon.2.2.2
  revert hy
  show ¬((quadPoint ⟨10, 0⟩ ⟨5, 100⟩ ⟨5, 0⟩ (((7 : ℕ) + 1 : ℚ) / (curveSegments : ℚ))).y ≤
    (max (max 0 0) 0 : ℚ))
  simp only [quadPoint, curveSegments]
  norm_num

/-- Box growth of the `from_points` fold step: a point inside the
accumulator stays inside. -/
theorem contains_foldl_step (rest : List Vec2) :
    ∀ (bb : BBox) (p : Vec2), bb.contains p = true →
      (rest.foldl (fun bb q => ⟨bb.min.vmin q, bb.max.vmax q⟩) bb).contains p = true := by
  induction rest with
  | nil => intro bb p h; exact h
  | cons q rest ih =>
      intro bb p h
      rw [List.foldl_cons]
      apply ih
      rw [contains_iff] at h ⊢
      obtain ⟨h1, h2, h3, h4⟩ := h
      exact ⟨le_trans (min_le_left _ _) h1, le_trans h2 (le_max_left _ _),
        le_trans (min_le_left _ _) h3, le_trans h4 (le_max_left _ _)⟩

/-- Every folded-over point ends up inside the `from_points` fold result. -/
theorem contains_foldl_mem (rest : List Vec2) :
    ∀ (bb : BBox) (p : Vec2), p ∈ rest →
      (rest.foldl (fun bb q => ⟨bb.min.vmin q, bb.max.vmax q⟩) bb).contains p = true := by
  induction rest with
  | nil => intro bb p h; exact absurd h (List.not_mem_nil p)
  | cons q rest ih =>
      intro bb p h
      rw [List.foldl_cons]
      rcases List.mem_cons.1 h with rfl | hmem
      · apply contains_foldl_step
        rw [contains_iff]
        exact ⟨min_le_right _ _, le_max_right _ _, min_le_right _ _, le_max_right _ _⟩
      · exact ih _ _ hmem

/-- `BBox::from_points` of a nonempty list contains each of its points. -/
theorem from_points_cons_contains (q : Vec2) (rest : List Vec2) :
    ∀ p ∈ q :: rest,
      ((BBox.from_points (q :: rest)).getD (BBox.new Vec2.ZERO Vec2.ZERO)).contains p
        = true := by
  intro p hp
  simp only [BBox.from_points, Option.getD_some]
  rcases List.mem_cons.1 hp with rfl | hmem
  · apply contains_foldl_step
    rw [contains_iff]
    exact ⟨le_refl _, le_refl _, le_refl _, le_refl _⟩
  · exact contains_foldl_mem _ _ _ hmem

/-- Convexity of the quadratic Bézier: a parameter point for `t ∈ [0,1]`
stays inside any box containing the three control points. -/
theorem quadPoint_contains (bb : BBox) (p0 c p1 : Vec2) (t : ℚ)
    (ht0 : 0 ≤ t) (ht1 : t ≤ 1)
    (h0 : bb.contains p0 = true) (hc : bb.contains c = true)
    (h1 : bb.contains p1 = true) :
    bb.contains (quadPoint p0 c p1 t) = true := by
  rw [contains_iff] at h0 hc h1 ⊢
  obtain ⟨h0a, h0b, h0c, h0d⟩ := h0
  obtain ⟨hca, hcb, hcc, hcd⟩ := hc
  obtain ⟨h1a, h1b, h1c, h1d⟩ := h1
  simp only [quadPoint]
  refine ⟨?_, ?_, ?_, ?_⟩
  · linarith [mul_nonneg (sq_nonneg (1 - t)) (sub_nonneg.2 h0a),
      mul_nonneg (mul_nonneg (by linarith : (0:ℚ) ≤ 2 * t) (by linarith : (0:ℚ) ≤ 1 - t))
        (sub_nonneg.2 hca),
      mul_nonneg (sq_nonneg t) (sub_nonneg.2 h1a)]
  · linarith [mul_nonneg (sq_nonneg (1 - t)) (sub_nonneg.2 h0b),
      mul_nonneg (mul_nonneg (by linarith : (0:ℚ) ≤ 2 * t) (by linarith : (0:ℚ) ≤ 1 - t))
        (sub_nonneg.2 hcb),
      mul_nonneg (sq_nonneg t) (sub_nonneg.2 h1b)]
  · linarith [mul_nonneg (sq_nonneg (1 - t)) (sub_nonneg.2 h0c),
      mul_nonneg (mul_nonneg (by linarith : (0:ℚ) ≤ 2 * t) (by linarith : (0:ℚ) ≤ 1 - t))
        (sub_nonneg.2 hcc),
      mul_nonneg (sq_nonneg t) (sub_nonneg.2 h1c)]
  · linarith [mul_nonneg (sq_nonneg (1 - t)) (sub_nonneg.2 h0d),
      mul_nonneg (mul_nonneg (by linarith : (0:ℚ) ≤ 2 * t) (by linarith : (0:ℚ) ≤ 1 - t))
        (sub_nonneg.2 hcd),
      mul_nonneg (sq_nonneg t) (sub_nonneg.2 h1d)]

/-- Convexity of the cubic Bézier: a parameter point for `t ∈ [0,1]` stays
inside any box containing the four control points. -/
theorem cubicPoint_contains (bb : BBox) (p0 c1 c2 p1 : Vec2) (t : ℚ)
    (ht0 : 0 ≤ t) (ht1 : t ≤ 1)
    (h0 : bb.contains p0 = true) (hc1 : bb.contains c1 = true)
    (hc2 : bb.contains c2 = true) (h1 : bb.contains p1 = true) :
    bb.contains (cubicPoint p0 c1 c2 p1 t) = true := by
  rw [contains_iff] at h0 hc1 hc2 h1 ⊢
  obtain ⟨h0a, h0b, h0c, h0d⟩ := h0
  obtain ⟨hca, hcb, hcc, hcd⟩ := hc1
  obtain ⟨hda, hdb, hdc, hdd⟩ := hc2
  obtain ⟨h1a, h1b, h1c, h1d⟩ := h1
  have hw0 : (0:ℚ) ≤ (1 - t) ^ 3 := pow_nonneg (by linarith) 3
  have hw1 : (0:ℚ) ≤ 3 * t * (1 - t) ^ 2 :=
    mul_nonneg (by linarith) (sq_nonneg _)
  have hw2 : (0:ℚ) ≤ 3 * t ^ 2 * (1 - t) :=
    mul_nonneg (by nlinarith [sq_nonneg t]) (by linarith)
  have hw3 : (0:ℚ) ≤ t ^ 3 := pow_nonneg ht0 3
  simp only [cubicPoint]
  refine ⟨?_, ?_, ?_, ?_⟩
  · linarith [mul_nonneg hw0 (sub_nonneg.2 h0a), mul_nonneg hw1 (sub_nonneg.2 hca),
      mul_nonneg hw2 (sub_nonneg.2 hda), mul_nonneg hw3 (sub_nonneg.2 h1a)]
  · linarith [mul_nonneg hw0 (sub_nonneg.2 h0b), mul_nonneg hw1 (sub_nonneg.2 hcb),
      mul_nonneg hw2 (sub_nonneg.2 hdb), mul_nonneg hw3 (sub_nonneg.2 h1b)]
  · linarith [mul_nonneg hw0 (sub_nonneg.2 h0c), mul_nonneg hw1 (sub_nonneg.2 hcc),
      mul_nonneg hw2 (sub_nonneg.2 hdc), mul_nonneg hw3 (sub_nonneg.2 h1c)]
  · linarith [mul_nonneg hw0 (sub_nonneg.2 h0d), mul_nonneg hw1 (sub_nonneg.2 hcd),
      mul_nonneg hw2 (sub_nonneg.2 hdd), mul_nonneg hw3 (sub_nonneg.2 h1d)]

/-- The flattening parameters `(i+1)/curveSegments` lie in `[0,1]`. -/
theorem flatten_t_bounds (i : ℕ) (hi : i < curveSegments) :
    (0:ℚ) ≤ ((i : ℚ) + 1) / (curveSegments : ℚ) ∧
      ((i : ℚ) + 1) / (curveSegments : ℚ) ≤ 1 := by
  have h16 : ((curveSegments : ℕ) : ℚ) = 16 := by norm_num [curveSegments]
  have hi15 : i ≤ 15 := Nat.lt_succ_iff.1 (show i < 16 from hi)
  have hiq : (i : ℚ) ≤ 15 := by exact_mod_cast hi15
  have hi0 : (0:ℚ) ≤ (i : ℚ) := Nat.cast_nonneg i
  rw [h16]
  constructor
  · apply div_nonneg (by linarith) (by norm_num)
  · rw [div_le_one (by norm_num)]
    linarith

/-- Every flattened point of a quadratic stays inside any box containing the
control points. -/
theorem flattenQuadTail_contains (bb : BBox) (p0 c p1 : Vec2)
    (h0 : bb.contains p0 = true) (hc : bb.contains c = true)
    (h1 : bb.contains p1 = true) :
    ∀ v ∈ flattenQuadTail p0 c p1, bb.contains v = true := by
  intro v hv
  unfold flattenQuadTail at hv
  obtain ⟨i, hi, rfl⟩ := List.mem_map.1 hv
  obtain ⟨ht0, ht1⟩ := flatten_t_bounds i (List.mem_range.1 hi)
  exact quadPoint_contains bb p0 c p1 _ ht0 ht1 h0 hc h1

/-- Every flattened point of a cubic stays inside any box containing the
control points. -/
theorem flattenCubicTail_contains (bb : BBox) (p0 c1 c2 p1 : Vec2)
    (h0 : bb.contains p0 = true) (hc1 : bb.contains c1 = true)
    (hc2 : bb.contains c2 = true) (h1 : bb.contains p1 = true) :
    ∀ v ∈ flattenCubicTail p0 c1 c2 p1, bb.contains v = true := by
  intro v hv
  unfold flattenCubicTail at hv
  obtain ⟨i, hi, rfl⟩ := List.mem_map.1 hv
  obtain ⟨ht0, ht1⟩ := flatten_t_bounds i (List.mem_range.1 hi)
  exact cubicPoint_contains bb p0 c1 c2 p1 _ ht0 ht1 h0 hc1 hc2 h1

/-- Containment of a literal point in a literal corner box, from the four
scalar inequalities. -/
theorem contains_corners (lx ly hx hy px py : ℚ)
    (h1 : lx ≤ px) (h2 : px ≤ hx) (h3 : ly ≤ py) (h4 : py ≤ hy) :
    (BBox.new ⟨lx, ly⟩ ⟨hx, hy⟩).contains ⟨px, py⟩ = true := by
  rw [contains_iff]
  exact ⟨h1, h2, h3, h4⟩

/-- The rectangle outline points stay inside the `(0,0)–(w,h)` box for
nonnegative dimensions (sharp corners or the clamped rounded outline). -/
theorem rectanglePoints_contains (w h cr : ℚ) (hw : 0 ≤ w) (hh : 0 ≤ h) :
    ∀ p ∈ rectanglePoints w h cr,
      (BBox.new ⟨0, 0⟩ ⟨w, h⟩).contains p = true := by
  intro p hp
  unfold rectanglePoints at hp
  by_cases hcr : cr ≤ 0
  · rw [if_pos hcr] at hp
    simp only [List.mem_cons, List.not_mem_nil, or_false] at hp
    rcases hp with rfl | rfl | rfl | rfl
    · exact contains_corners _ _ _ _ _ _ (le_refl _) hw (le_refl _) hh
    · exact contains_corners _ _ _ _ _ _ hw (le_refl _) (le_refl _) hh
    · exact contains_corners _ _ _ _ _ _ hw (le_refl _) hh (le_refl _)
    · exact contains_corners _ _ _ _ _ _ (le_refl _) hw hh (le_refl _)
  · rw [if_neg hcr] at hp
    push_neg at hcr
    set r := min (min cr (w / 2)) (h / 2) with hrdef
    have hr0 : 0 ≤ r := le_min (le_min hcr.le (by linarith)) (by linarith)
    have hrw : r ≤ w / 2 := le_trans (min_le_left _ _) (min_le_right _ _)
    have hrh : r ≤ h / 2 := min_le_right _ _
    unfold roundedRectPoints at hp
    simp only [List.mem_cons, List.mem_append] at hp
    rcases hp with rfl | rfl | hp | rfl | hp | rfl | hp | rfl | hp
    · exact contains_corners _ _ _ _ _ _ hr0 (by linarith) (le_refl _) hh
    · exact contains_corners _ _ _ _ _ _ (by linarith) (by linarith) (le_refl _) hh
    · exact flattenQuadTail_contains _ _ _ _
        (contains_corners _ _ _ _ _ _ (by linarith) (by linarith) (le_refl _) hh)
        (contains_corners _ _ _ _ _ _ hw (le_refl _) (le_refl _) hh)
        (contains_corners _ _ _ _ _ _ hw (le_refl _) hr0 (by linarith)) _ hp
    · exact contains_corners _ _ _ _ _ _ hw (le_refl _) (by linarith) (by linarith)
    · exact flattenQuadTail_contains _ _ _ _
        (contains_corners _ _ _ _ _ _ hw (le_refl _) (by linarith) (by linarith))
        (contains_corners _ _ _ _ _ _ hw (le_refl _) hh (le_refl _))
        (contains_corners _ _ _ _ _ _ (by linarith) (by linarith) hh (le_refl _)) _ hp
    · exact contains_corners _ _ _ _ _ _ hr0 (by linarith) hh (le_refl _)
    · exact flattenQuadTail_contains _ _ _ _
        (contains_corners _ _ _ _ _ _ hr0 (by linarith) hh (le_refl _))
        (contains_corners _ _ _ _ _ _ (le_refl _) hw hh (le_refl _))
        (contains_corners _ _ _ _ _ _ (le_refl _) hw (by linarith) (by linarith)) _ hp
    · exact contains_corners _ _ _ _ _ _ (le_refl _) hw hr0 (by linarith)
    · exact flattenQuadTail_contains _ _ _ _
        (contains_corners _ _ _ _ _ _ (le_refl _) hw hr0 (by linarith))
        (contains_corners _ _ _ _ _ _ (le_refl _) hw (le_refl _) hh)
        (contains_corners _ _ _ _ _ _ hr0 (by linarith) (le_refl _) hh) _ hp

/-- The 4-cubic ellipse outline points stay inside the `(-rx,-ry)–(rx,ry)`
box for nonnegative radii. -/
theorem ellipsePoints_contains (rx ry : ℚ) (hrx : 0 ≤ rx) (hry : 0 ≤ ry) :
    ∀ p ∈ ellipsePoints rx ry,
      (BBox.new ⟨-rx, -ry⟩ ⟨rx, ry⟩).contains p = true := by
  intro p hp
  have hkx0 : 0 ≤ rx * ellipseK := mul_nonneg hrx (by norm_num [ellipseK])
  have hk1 : ellipseK ≤ 1 := by norm_num [ellipseK]
  have hkx1 : rx * ellipseK ≤ rx := by
    have hmul := mul_le_mul_of_nonneg_left hk1 hrx
    rwa [mul_one] at hmul
  have hky0 : 0 ≤ ry * ellipseK := mul_nonneg hry (by norm_num [ellipseK])
  have hky1 : ry * ellipseK ≤ ry := by
    have hmul := mul_le_mul_of_nonneg_left hk1 hry
    rwa [mul_one] at hmul
  unfold ellipsePoints at hp
  simp only [List.mem_cons, List.mem_append] at hp
  rcases hp with rfl | hp | hp | hp | hp
  · exact contains_corners _ _ _ _ _ _ (by linarith) (le_refl _) (by linarith) hry
  · exact flattenCubicTail_contains _ _ _ _ _
      (contains_corners _ _ _ _ _ _ (by linarith) (le_refl _) (by linarith) hry)
      (contains_corners _ _ _ _ _ _ (by linarith) (le_refl _) (by linarith) hky1)
      (contains_corners _ _ _ _ _ _ (by linarith) hkx1 (by linarith) (le_refl _))
      (contains_corners _ _ _ _ _ _ (by linarith) hrx (by linarith) (le_refl _)) _ hp
  · exact flattenCubicTail_contains _ _ _ _ _
      (contains_corners _ _ _ _ _ _ (by linarith) hrx (by linarith) (le_refl _))
      (contains_corners _ _ _ _ _ _ (by linarith) (by linarith) (by linarith) (le_refl _))
      (contains_corners _ _ _ _ _ _ (le_refl _) (by linarith) (by linarith) hky1)
      (contains_corners _ _ _ _ _ _ (le_refl _) (by linarith) (by linarith) hry) _ hp
  · exact flattenCubicTail_contains _ _ _ _ _
      (contains_corners _ _ _ _ _ _ (le_refl _) (by linarith) (by linarith) hry)
      (contains_corners _ _ _ _ _ _ (le_refl _) (by linarith) (by linarith) (by linarith))
      (contains_corners _ _ _ _ _ _ (by linarith) (by linarith) (le_refl _) (by linarith))
      (contains_corners _ _ _ _ _ _ (by linarith) hrx (le_refl _) (by linarith)) _ hp
  · exact flattenCubicTail_contains _ _ _ _ _
      (contains_corners _ _ _ _ _ _ (by linarith) hrx (le_refl _) (by linarith))
      (contains_corners _ _ _ _ _ _ (by linarith) (by linarith) (le_refl _) (by linarith))
      (contains_corners _ _ _ _ _ _ (by linarith) (le_refl _) (by linarith) (by linarith))
      (contains_corners _ _ _ _ _ _ (by linarith) (le_refl _) (by linarith) hry) _ hp

/-- C1 (amended): the containment holds for the *fill* meshes of the
closed-form geometries — every vertex of the fill tessellation of a
`Polygon`, of a `Rectangle` with nonnegative dimensions, and of an `Ellipse`
with nonnegative radii lies inside `local_bounds()`.  (It fails in general
for `Path` geometries, whose `local_bounds` ignores Bézier control points —
see the counterexample — and for stroke meshes, which a centered stroke
widens `width/2` beyond the outline.) -/
theorem fill_tessellation_within_local_bounds :
    (∀ (pts : List Vec2) (colr : Color) (m : Mesh),
      tessellate_geometry_fill (ShapeGeometry.Polygon pts) colr = some m →
      ∀ v ∈ m.vertices,
        ((ShapeGeometry.Polygon pts).local_bounds).contains v.position = true) ∧
    (∀ (w h cr : ℚ) (colr : Color) (m : Mesh), 0 ≤ w → 0 ≤ h →
      tessellate_geometry_fill (ShapeGeometry.Rectangle w h cr) colr = some m →
      ∀ v ∈ m.vertices,
        ((ShapeGeometry.Rectangle w h cr).local_bounds).contains v.position = true) ∧
    (∀ (rx ry : ℚ) (colr : Color) (m : Mesh), 0 ≤ rx → 0 ≤ ry →
      tessellate_geometry_fill (ShapeGeometry.Ellipse rx ry) colr = some m →
      ∀ v ∈ m.vertices,
        ((ShapeGeometry.Ellipse rx ry).local_bounds).contains v.position = true) := by
  refine ⟨?_, ?_, ?_⟩
  · intro pts colr m hm v hv
    simp only [tessellate_geometry_fill, tessellate_polygon_fill] at hm
    by_cases hlen : pts.length < 3
    · rw [if_pos hlen] at hm
      exact absurd hm (by simp)
    · rw [if_neg hlen] at hm
      obtain rfl := (Option.some.inj hm).symm
      simp only [meshOfPoints, List.mem_map] at hv
      obtain ⟨p, hp, rfl⟩ := hv
      show ((ShapeGeometry.Polygon pts).local_bounds).contains p = true
      cases pts with
      | nil => exact absurd hp (List.not_mem_nil p)
      | cons q rest =>
          show ((BBox.from_points (q :: rest)).getD (BBox.new Vec2.ZERO Vec2.ZERO)).contains
            p = true
          exact from_points_cons_contains q rest p hp
  · intro w h cr colr m hw hh hm v hv
    simp only [tessellate_geometry_fill, tessellate_rectangle_fill] at hm
    obtain rfl := (Option.some.inj hm).symm
    simp only [meshOfPoints, List.mem_map] at hv
    obtain ⟨p, hp, rfl⟩ := hv
    show (BBox.new ⟨0, 0⟩ ⟨w, h⟩).contains p = true
    exact rectanglePoints_contains w h cr hw hh p hp
  · intro rx ry colr m hrx hry hm v hv
    simp only [tessellate_geometry_fill, tessellate_ellipse_fill] at hm
    obtain rfl := (Option.some.inj hm).symm
    simp only [meshOfPoints, List.mem_map] at hv
    obtain ⟨p, hp, rfl⟩ := hv
    show (BBox.new ⟨-rx, -ry⟩ ⟨rx, ry⟩).contains p = true
    exact ellipsePoints_contains rx ry hrx hry p hp

/-- C1 (amended) witness: the rectangle clause of
`fill_tessellation_within_local_bounds` at a concrete `4 × 3` sharp
rectangle and its corner vertex `(0,0)`. -/
theorem fill_tessellation_within_local_bounds_witness :
    ((ShapeGeometry.Rectangle 4 3 0).local_bounds).contains
      (⟨⟨0, 0⟩, Color.black⟩ : Vertex).position = true :=
  fill_tessellation_within_local_bounds.2.1 4 3 0 Color.black _
    (by norm_num) (by norm_num) rfl _ (by decide)

end CanvasRs
